import Mathlib

/-!
Verification development for the DocNeat backend statement-table pipeline
(`src/main.py`).  The Python functions `extract_tables_from_textract`,
`clean_dataframe` and the OCR fallback state machine inside `upload` are
shallowly embedded as executable Lean definitions: pandas DataFrames become a
`DFrame` of string/number/date/NaN cells, pandas column operations become
elementwise maps on rows, exceptions become `Except`, Python floats become
`Rat`, and the regular expressions used by the code are implemented directly
as character-list matchers with Python `re` backtracking order.
-/

/-- Decidable equality for `Except`, so that concrete runs of the embedded
functions can be checked by `decide`. -/
instance {ε α : Type} [DecidableEq ε] [DecidableEq α] : DecidableEq (Except ε α) := fun a b =>
  match a, b with
  | .error e, .error f =>
    if h : e = f then .isTrue (by rw [h]) else .isFalse (by intro hh; cases hh; exact h rfl)
  | .ok x, .ok y =>
    if h : x = y then .isTrue (by rw [h]) else .isFalse (by intro hh; cases hh; exact h rfl)
  | .error _, .ok _ => .isFalse (by intro hh; cases hh)
  | .ok _, .error _ => .isFalse (by intro hh; cases hh)

/-- Whitespace test used by the models of Python `str.strip`. -/
def isWS (c : Char) : Bool := c = ' ' || c = '\t' || c = '\n' || c = '\r'

/-- Drop leading and trailing whitespace from a character list, as Python
`str.strip()` does. -/
def stripChars (l : List Char) : List Char :=
  ((l.dropWhile isWS).reverse.dropWhile isWS).reverse

/-- Model of Python `str.strip()`. -/
def pyStrip (s : String) : String := String.mk (stripChars s.toList)

/-- Replace every leftmost non-overlapping occurrence of `old` (non-empty) by
`new` in a character list; the fuel argument bounds recursion by the input
length.  Models Python `str.replace`. -/
def replChars (old new : List Char) : Nat → List Char → List Char
  | 0, l => l
  | _ + 1, [] => []
  | fuel + 1, c :: cs =>
    if old ≠ [] ∧ old.isPrefixOf (c :: cs) then
      new ++ replChars old new fuel (List.drop old.length (c :: cs))
    else
      c :: replChars old new fuel cs

/-- Model of Python `str.replace(old, new)` for non-empty `old`. -/
def pyReplace (s old new : String) : String :=
  String.mk (replChars old.toList new.toList (s.toList.length + 1) s.toList)

/-- Substring test: model of Python `needle in haystack` for strings. -/
def hasSubChars (needle : List Char) : List Char → Bool
  | [] => needle.isEmpty
  | c :: cs => needle.isPrefixOf (c :: cs) || hasSubChars needle cs

/-- Model of Python `needle in haystack`. -/
def hasSub (haystack needle : String) : Bool :=
  hasSubChars needle.toList haystack.toList

/-- Accumulate a decimal natural number from digit characters. -/
def digitsVal (ds : List Char) : Nat :=
  ds.foldl (fun acc c => 10 * acc + (c.toNat - 48)) 0

/-- Exact rational subtraction, written with `mkRat` so that concrete runs
kernel-reduce (the library `Rat.sub` is `@[irreducible]`); it equals `a - b`
by `Rat.sub_def'`, see `ratSub_eq_sub` below. -/
def ratSub (a b : Rat) : Rat :=
  mkRat (a.num * (b.den : Int) - b.num * (a.den : Int)) (a.den * b.den)

/-- Exact rational negation via `mkRat`; equals `-a`, see `ratNeg_eq_neg`. -/
def ratNeg (a : Rat) : Rat := mkRat (-a.num) a.den

/-- The rational `ip.fp` with `k` fractional digits, via `mkRat`. -/
def decimalRat (ip fp k : Nat) : Rat :=
  mkRat ((ip * 10 ^ k + fp : Nat) : Int) (10 ^ k)

/-- Parse an unsigned decimal (digits, optionally a dot and more digits, at
least one digit in total), the whole list consumed.  Helper for `parseNum`. -/
def parsePos (cs : List Char) : Option Rat :=
  let ds := cs.takeWhile Char.isDigit
  let r1 := cs.dropWhile Char.isDigit
  match r1 with
  | [] => if ds = [] then none else some (decimalRat (digitsVal ds) 0 0)
  | '.' :: r2 =>
    let fs := r2.takeWhile Char.isDigit
    let r3 := r2.dropWhile Char.isDigit
    if r3 = [] ∧ (ds ≠ [] ∨ fs ≠ []) then
      some (decimalRat (digitsVal ds) (digitsVal fs) fs.length)
    else none
  | _ => none

/-- Model of `pd.to_numeric(·, errors='coerce')` / Python `float()` on a single
string, restricted to plain signed decimals (the only shapes this pipeline
produces; scientific notation and the like coerce to `none` = NaN). -/
def parseNum (s : String) : Option Rat :=
  match stripChars s.toList with
  | '-' :: rest => (parsePos rest).map ratNeg
  | '+' :: rest => parsePos rest
  | cs => parsePos cs

/-- A pandas cell value: a string, a float (modelled as `Rat`), a parsed
timestamp (year, month, day), or NaN/NaT. -/
inductive Val where
  | s (t : String)
  | f (q : Rat)
  | date (y m d : Nat)
  | nan
deriving DecidableEq, Repr

/-- String test for a cell (pandas object-dtype "string value"). -/
def Val.isStrB : Val → Bool
  | .s _ => true
  | _ => false

/-- Test for a missing value (NaN or NaT), as pandas `isna`. -/
def Val.isNaB : Val → Bool
  | .nan => true
  | _ => false

/-- Numeric (float) test for a cell. -/
def Val.isFB : Val → Bool
  | .f _ => true
  | _ => false

/-- The float carried by a numeric cell, 0 otherwise (only applied to cells
that are known to be numeric). -/
def Val.ratOf : Val → Rat
  | .f q => q
  | _ => 0

/-- A pandas DataFrame: a list of column names and a list of rows of cells
(rows of a well-formed frame all have `cols.length` cells). -/
structure DFrame where
  cols : List String
  rows : List (List Val)
deriving DecidableEq, Repr

/-- Model of `df.empty`: true when there are no rows or no columns. -/
def DFrame.emptyB (df : DFrame) : Bool := df.rows.isEmpty || df.cols.isEmpty

/-- Well-formedness: each row has exactly one cell per column. -/
def DFrame.Rect (df : DFrame) : Prop :=
  ∀ r ∈ df.rows, r.length = df.cols.length

instance (df : DFrame) : Decidable df.Rect :=
  inferInstanceAs (Decidable (∀ r ∈ df.rows, r.length = df.cols.length))

/-- The cell of row `r` in column position `j` (NaN when out of range). -/
def cellAt (r : List Val) (j : Nat) : Val := r.getD j Val.nan

/-- Apply `f` to the cell at position `j`, leaving other cells (and rows that
are too short) unchanged. -/
def updAt (j : Nat) (f : Val → Val) (r : List Val) : List Val :=
  match r.get? j with
  | some v => r.set j (f v)
  | none => r

/-- Position of the first column named `n` (`cols.length` when absent), as
pandas column lookup on uniquely-named columns. -/
def colIdx : List String → String → Nat
  | [], _ => 0
  | c :: cs, n => if c = n then 0 else colIdx cs n + 1

/-- Model of line 100 of `clean_dataframe` together with the `col_map` rename
(lines 101-108): strip the column name, then apply the rename map. -/
def renameCol (c : String) : String :=
  if c = ("Date") then ("Date")
  else if c = ("Payment type and details") then ("Description")
  else if c = ("Paid out") then ("Paid Out")
  else if c = ("Paid in") then ("Paid In")
  else if c = ("Balance") then ("Balance")
  else c

/-- Column names after `df.columns = [col.strip() ...]` and `df.rename`. -/
def normCols (cols : List String) : List String :=
  cols.map (fun c => renameCol (pyStrip c))

/-- Model of `.str.replace(',', '').str.replace('£', '')` followed by
`pd.to_numeric(errors='coerce').fillna(0)` on a single cell: non-strings
become NaN under `.str` and then 0 under `fillna`; strings are stripped of
commas and pound signs, parsed, and unparsable ones become 0. -/
def cleanCell (v : Val) : Val :=
  match v with
  | .s t => .f ((parseNum (pyReplace (pyReplace t (",") ("")) ("£") (""))).getD 0)
  | _ => .f 0

/-- Month-abbreviation lookup for the date model. -/
def monthNum (w : String) : Option Nat :=
  let t := String.mk (w.toList.map Char.toLower)
  if t = ("jan") then some 1 else if t = ("feb") then some 2
  else if t = ("mar") then some 3 else if t = ("apr") then some 4
  else if t = ("may") then some 5 else if t = ("jun") then some 6
  else if t = ("jul") then some 7 else if t = ("aug") then some 8
  else if t = ("sep") then some 9 else if t = ("oct") then some 10
  else if t = ("nov") then some 11 else if t = ("dec") then some 12
  else none

/-- Split a character list into maximal whitespace-free words. -/
def splitWSChars : Nat → List Char → List (List Char)
  | 0, _ => []
  | _ + 1, [] => []
  | fuel + 1, c :: cs =>
    if isWS c then splitWSChars fuel cs
    else (c :: cs.takeWhile (fun d => !isWS d)) :: splitWSChars fuel (cs.dropWhile (fun d => !isWS d))

/-- Digit-only parse of a whole word. -/
def parseNatAll (cs : List Char) : Option Nat :=
  if cs ≠ [] ∧ cs.all Char.isDigit then some (digitsVal cs) else none

/-- Model of `pd.to_datetime(·, errors='coerce', dayfirst=True)` on one cell,
restricted to the day / three-letter-month / two-or-four-digit-year short
forms this pipeline produces (e.g. "15 Jun 25"); anything else coerces to
NaT.  Two-digit years follow the pandas pivot (≤ 68 means 2000s). -/
def parseDate (t : String) : Option (Nat × Nat × Nat) :=
  match splitWSChars (t.toList.length + 1) t.toList with
  | [d, m, y] =>
    match parseNatAll d, monthNum (String.mk m), parseNatAll y with
    | some day, some mn, some yr =>
      if 1 ≤ day ∧ day ≤ 31 ∧ (y.length = 2 ∨ y.length = 4) then
        some (if y.length = 2 then (if yr ≤ 68 then 2000 + yr else 1900 + yr) else yr, mn, day)
      else none
    | _, _, _ => none
  | _ => none

/-- Cellwise model of line 114 (`pd.to_datetime` on the Date column):
strings parse or coerce to NaT, timestamps pass through, NaN stays NaT.
(`pd.to_datetime` on numeric input would produce epoch-offset timestamps;
the pipeline's Date columns never hold numerics, and the model coerces
them to NaT.) -/
def dtCell (v : Val) : Val :=
  match v with
  | .s t =>
    match parseDate t with
    | some (y, m, d) => .date y m d
    | none => .nan
  | .date y m d => .date y m d
  | _ => .nan

/-- The alternatives of the noise regex of lines 116-118 of `clean_dataframe`,
split at `|`.  The only regex metacharacter occurring in them is `.`
(a wildcard inside "www.hsbc.co.uk"). -/
def noisePats : List String :=
  [("BALANCE BROUGHT FORWARD"), ("BALANCE CARRIED FORWARD"), ("Account Summary"),
   ("Opening Balance"), ("Closing Balance"), ("Sortcode"), ("Sheet Number"),
   ("HSBC > UK"), ("Contact tel"), ("Text phone"), ("www.hsbc.co.uk"),
   ("Your Statement")]

/-- Single pattern character against a text character, case-insensitively;
`.` matches anything except a newline, as in `re` without DOTALL. -/
def patCharMatches (p c : Char) : Bool :=
  if p = '.' then c ≠ '\n' else p.toLower = c.toLower

/-- Match a whole pattern at the head of the text. -/
def patMatchesAt : List Char → List Char → Bool
  | [], _ => true
  | _ :: _, [] => false
  | p :: ps, c :: cs => patCharMatches p c && patMatchesAt ps cs

/-- Search a pattern anywhere in the text, as `re.search`. -/
def patSearch (ps : List Char) : List Char → Bool
  | [] => patMatchesAt ps []
  | c :: cs => patMatchesAt ps (c :: cs) || patSearch ps cs

/-- Case-insensitive match of the noise regex of line 117 against a string. -/
def containsNoise (s : String) : Bool :=
  noisePats.any (fun p => patSearch p.toList s.toList)

/-- Model of `.str.contains(noise-regex, na=False, case=False)` on one cell:
non-strings give `False` because of `na=False`. -/
def noiseVal (v : Val) : Bool :=
  match v with
  | .s t => containsNoise t
  | _ => false

/-- Model of `series != 0` for the Amount filter of line 119: floats compare
numerically, and NaN or non-numeric values compare unequal to 0 (as in
pandas object comparisons). -/
def neZeroVal (v : Val) : Bool :=
  match v with
  | .f q => q != 0
  | _ => true

/-- Error value standing for the `AttributeError` pandas raises when the
`.str` accessor is used on a column that holds no string values. -/
def strAccErr : String := "AttributeError: Can only use .str accessor with string values"

/-- Error value standing for the `KeyError` raised by `df['Amount']` when no
Amount column exists (line 119). -/
def keyErrAmount : String := "KeyError: Amount"

/-- Error value standing for the `IndexingError` modern pandas raises when a
nonempty frame is indexed with the unalignable empty boolean mask produced
by `df.get('Description', pd.Series())` on a frame with no Description
column (line 116). -/
def alignErr : String := "IndexingError: Unalignable boolean Series provided as indexer"

/-- Model of lines 110/111: replace commas and pound signs in a paid column,
coerce to numbers and fill NaN with 0.  Raises (as pandas `.str` does) when
the nonempty column holds no string values. -/
def toNumericFillCol (j : Nat) (rows : List (List Val)) : Except String (List (List Val)) :=
  if !rows.isEmpty && rows.all (fun r => !(cellAt r j).isStrB) then .error strAccErr
  else .ok (rows.map (updAt j cleanCell))

/-- The Amount value of line 112 for one (already numeric-cleaned) row:
`df['Paid In'] - df['Paid Out']`. -/
def amtValRow (cols : List String) (r : List Val) : Val :=
  .f (ratSub (cellAt r (colIdx cols ("Paid In"))).ratOf (cellAt r (colIdx cols ("Paid Out"))).ratOf)

/-- Model of `df['Amount'] = ...` on one row: overwrite an existing Amount
column in place, otherwise append it as the rightmost column. -/
def setAmtRow (cols : List String) (r : List Val) : List Val :=
  if cols.contains ("Amount") then r.set (colIdx cols ("Amount")) (amtValRow cols r)
  else r ++ [amtValRow cols r]

/-- Column names after line 112: `Amount` is appended when new. -/
def setAmtCols (cols : List String) : List String :=
  if cols.contains ("Amount") then cols else cols ++ [("Amount")]

/-- Model of lines 116-118: drop rows whose Description matches the noise
regex.  With no Description column, modern pandas raises on a nonempty
frame (unalignable empty boolean mask) and yields the empty frame
otherwise; with a Description column holding no strings, `.str.contains`
raises. -/
def noiseStep (cols : List String) (rows : List (List Val)) : Except String (List (List Val)) :=
  if cols.contains ("Description") then
    if !rows.isEmpty && rows.all (fun r => !(cellAt r (colIdx cols ("Description"))).isStrB) then
      .error strAccErr
    else
      .ok (rows.filter (fun r => !noiseVal (cellAt r (colIdx cols ("Description")))))
  else if rows.isEmpty then .ok rows else .error alignErr

/-- Model of lines 109-112 of `clean_dataframe`: when both paid columns are
present, clean the Paid Out column, then the Paid In column, then assign
the Amount column; otherwise leave the frame untouched.  Returns the new
column names and rows. -/
def paidStep (cols : List String) (rows : List (List Val)) :
    Except String (List String × List (List Val)) :=
  if cols.contains ("Paid Out") && cols.contains ("Paid In") then
    (toNumericFillCol (colIdx cols ("Paid Out")) rows).bind (fun r1 =>
      (toNumericFillCol (colIdx cols ("Paid In")) r1).bind (fun r2 =>
        .ok (setAmtCols cols, r2.map (setAmtRow cols))))
  else .ok (cols, rows)

/-- Model of lines 113-121 of `clean_dataframe`: Date conversion, dropna,
noise filter, and the Amount filter (which raises `KeyError` when there is
no Amount column). -/
def postSteps (cols1 : List String) (rows1 : List (List Val)) : Except String DFrame :=
  (noiseStep cols1
      ((if cols1.contains ("Date") then rows1.map (updAt (colIdx cols1 ("Date")) dtCell)
        else rows1).filter (fun r => r.any (fun v => !v.isNaB)))).bind (fun rows4 =>
    if cols1.contains ("Amount") then
      .ok ⟨cols1, rows4.filter (fun r => neZeroVal (cellAt r (colIdx cols1 ("Amount"))))⟩
    else .error keyErrAmount)

/-- The body of `clean_dataframe` for a nonempty frame: lines 100-121 on the
renamed columns. -/
def cleanCore (cols : List String) (rows : List (List Val)) : Except String DFrame :=
  (paidStep cols rows).bind (fun p => postSteps p.1 p.2)

/-- Shallow embedding of `clean_dataframe` (lines 97-121 of `src/main.py`).
Pandas exceptions are modelled by `Except.error`. -/
def clean_dataframe (df : DFrame) : Except String DFrame :=
  if df.emptyB then .ok df
  else cleanCore (normCols df.cols) df.rows

/-- Word character for the `\w` class of the date regex (ASCII range; the
pipeline's OCR text is ASCII). -/
def isWordChar (c : Char) : Bool := c.isAlphanum || c = '_'

/-- Two-digit-day attempt of `re.match(r'\d{1,2} \w{3} \d{2}', line)`. -/
def tryDate2 (l : List Char) : Option (List Char) :=
  match l with
  | d1 :: d2 :: c3 :: w1 :: w2 :: w3 :: c7 :: y1 :: y2 :: _ =>
    if d1.isDigit && d2.isDigit && (c3 = ' ') && isWordChar w1 && isWordChar w2 &&
       isWordChar w3 && (c7 = ' ') && y1.isDigit && y2.isDigit then
      some [d1, d2, c3, w1, w2, w3, c7, y1, y2]
    else none
  | _ => none

/-- One-digit-day attempt (the backtracking alternative of `\d{1,2}`). -/
def tryDate1 (l : List Char) : Option (List Char) :=
  match l with
  | d1 :: c2 :: w1 :: w2 :: w3 :: c6 :: y1 :: y2 :: _ =>
    if d1.isDigit && (c2 = ' ') && isWordChar w1 && isWordChar w2 && isWordChar w3 &&
       (c6 = ' ') && y1.isDigit && y2.isDigit then
      some [d1, c2, w1, w2, w3, c6, y1, y2]
    else none
  | _ => none

/-- Model of `re.match(r'\d{1,2} \w{3} \d{2}', line)` (line 177): anchored at
the start, greedy day first, returning the matched text. -/
def matchDate (line : String) : Option String :=
  match tryDate2 line.toList with
  | some m => some (String.mk m)
  | none => (tryDate1 line.toList).map String.mk

/-- The lazy `(?:,\d{3})*?\.\d{2}` tail of the amount regex: try the dot part
first (lazy repetition), then consume one `,ddd` group and recurse.
Returns the consumed characters and the rest. -/
def amtTail : Nat → List Char → Option (List Char × List Char)
  | 0, _ => none
  | fuel + 1, l =>
    match l with
    | '.' :: a :: b :: rest =>
      if a.isDigit && b.isDigit then some (['.', a, b], rest)
      else
        match l with
        | ',' :: e :: f :: g :: rest2 =>
          if e.isDigit && f.isDigit && g.isDigit then
            (amtTail fuel rest2).map (fun p => (',' :: e :: f :: g :: p.1, p.2))
          else none
        | _ => none
    | ',' :: e :: f :: g :: rest2 =>
      if e.isDigit && f.isDigit && g.isDigit then
        (amtTail fuel rest2).map (fun p => (',' :: e :: f :: g :: p.1, p.2))
      else none
    | _ => none

/-- Try to match `\d{1,3}(?:,\d{3})*?\.\d{2}` at the head of the text, taking
the day digits greedily (3, then 2, then 1), as the `re` engine does.
Returns the matched characters and the rest. -/
def matchAmtAt (l : List Char) : Option (List Char × List Char) :=
  let tryK : Nat → Option (List Char × List Char) := fun k =>
    let ds := l.take k
    if ds.length = k ∧ ds.all Char.isDigit then
      (amtTail (l.length + 1) (l.drop k)).map (fun p => (ds ++ p.1, p.2))
    else none
  match tryK 3 with
  | some r => some r
  | none =>
    match tryK 2 with
    | some r => some r
    | none => tryK 1

/-- Combined model of `re.findall` (line 196) and `re.sub` (line 211) for the
amount regex: scan left to right, collecting non-overlapping matches and
the residual characters. -/
def scanAmts : Nat → List Char → List (List Char) × List Char
  | 0, l => ([], l)
  | _ + 1, [] => ([], [])
  | fuel + 1, c :: cs =>
    match matchAmtAt (c :: cs) with
    | some (m, rest) =>
      let p := scanAmts fuel rest
      (m :: p.1, p.2)
    | none =>
      let p := scanAmts fuel cs
      (p.1, c :: p.2)

/-- All amount matches of a line together with the line with matches removed. -/
def amtScan (line : String) : List (List Char) × List Char :=
  scanAmts (line.toList.length + 1) line.toList

/-- Model of `float(a.replace(',', ''))` on one regex match. -/
def amtVal (m : List Char) : Rat :=
  (parseNum (String.mk (m.filter (fun c => c ≠ ',')))).getD 0

/-- One transaction dictionary of the OCR fallback (lines 181-188): `Paid Out`,
`Paid In` and `Balance` hold either a float or the empty string, modelled as
`Option Rat`. -/
structure OTxn where
  date : String
  desc : String
  paidOut : Option Rat
  paidIn : Option Rat
  balance : Option Rat
  amount : Rat
deriving DecidableEq, Repr

/-- The mutable locals of the OCR fallback loop (lines 170-174) plus the
accumulated `data` list. -/
structure OState where
  currentDate : Option String
  currentDesc : String
  currentPaidOut : Option Rat
  currentPaidIn : Option Rat
  currentBalance : Option Rat
  data : List OTxn
deriving DecidableEq, Repr

/-- Initial state of the loop: no date, empty description and amounts. -/
def initO : OState := ⟨none, (""), none, none, none, []⟩

/-- The transaction flushed from the current context (lines 180-188 and
215-224): `float(x or 0)` turns an empty amount into 0. -/
def flushTxn (cd : String) (s : OState) : OTxn :=
  ⟨cd, pyStrip s.currentDesc, s.currentPaidOut, s.currentPaidIn, s.currentBalance,
   ratSub (s.currentPaidIn.getD 0) (s.currentPaidOut.getD 0)⟩

/-- One iteration of the OCR fallback loop (lines 176-213) on one line. -/
def stepLine (s : OState) (line : String) : OState :=
  match matchDate line with
  | some d =>
    let data' :=
      match s.currentDate with
      | some cd => s.data ++ [flushTxn cd s]
      | none => s.data
    { currentDate := some d
      currentDesc := pyStrip (pyReplace line d (""))
      currentPaidOut := none
      currentPaidIn := none
      currentBalance := none
      data := data' }
  | none =>
    let p := amtScan line
    let amts := p.1.map amtVal
    let s1 :=
      match amts with
      | [] => s
      | [a] =>
        if hasSub line ("Visa Rate") || hasSub line ("Transaction Fee") then
          { s with currentPaidOut := some a }
        else
          { s with currentBalance := some a }
      | [a, b] => { s with currentPaidOut := some a, currentPaidIn := some b }
      | a :: b :: c :: _ =>
        { s with currentPaidOut := some a, currentPaidIn := some b, currentBalance := some c }
    let line' := if amts.isEmpty then line else pyStrip (String.mk p.2)
    if line' = ("") then s1
    else { s1 with currentDesc := if s1.currentDesc = ("") then line' else s1.currentDesc ++ (" ") ++ line' }

/-- The OCR fallback loop over a list of lines. -/
def runLines (s : OState) (ls : List String) : OState := ls.foldl stepLine s

/-- The final transaction list (lines 215-224): the still-open transaction is
flushed when a date has been seen. -/
def finalizeData (s : OState) : List OTxn :=
  match s.currentDate with
  | some cd => s.data ++ [flushTxn cd s]
  | none => s.data

/-- The last date matched by any line of the list, if any (the value held by
`current_date` after the loop). -/
def lastMatchedDate (ls : List String) : Option String :=
  ls.foldl (fun acc l => match matchDate l with | some m => some m | none => acc) none

/-- One Textract CELL block with its WORD children already resolved, in
relationship order: the `RowIndex`, `ColumnIndex` and the word texts.
(The `Id`-to-block lookups of lines 48-70 are modelled as resolved.) -/
structure TCell where
  row : Nat
  col : Nat
  words : List String
deriving DecidableEq, Repr

/-- Model of lines 64-75: concatenate each word followed by a space, then
strip the result. -/
def textOf (ws : List String) : String :=
  pyStrip (ws.foldl (fun acc w => acc ++ w ++ (" ")) (""))

/-- One step of the row-bucketing loop (lines 60-76): a row break happens only
when the new cell's row index strictly exceeds the row index of the last
cell of the current row. -/
def bucketStep (acc : List (List TCell) × List TCell) (c : TCell) : List (List TCell) × List TCell :=
  match acc.2.getLast? with
  | some lastC =>
    if c.row > lastC.row then (acc.1 ++ [acc.2], [c])
    else (acc.1, acc.2 ++ [c])
  | none => (acc.1, acc.2 ++ [c])

/-- The row buckets produced for one table starting from the carried-over
`current_row` value `cur0` (the code never resets `current_row` between
tables), together with the `current_row` left for the next table.  The
final nonempty `current_row` is appended to the table (lines 78-79) but
also stays live. -/
def bucketTable (cur0 : List TCell) (cells : List TCell) : List (List TCell) × List TCell :=
  let p := cells.foldl bucketStep ([], cur0)
  (if p.2.isEmpty then p.1 else p.1 ++ [p.2], p.2)

/-- Stable sort of a row's cells by column index, as `sorted(row, key=col)`
(line 85): insertion after existing equal keys preserves input order. -/
def insCol (c : TCell) : List TCell → List TCell
  | [] => [c]
  | d :: ds => if d.col ≤ c.col then d :: insCol c ds else c :: d :: ds

/-- Insertion sort by column index (stable, like Python `sorted`). -/
def sortCol : List TCell → List TCell
  | [] => []
  | c :: cs => insCol c (sortCol cs)

/-- The texts of one bucketed row, in column-sorted order (lines 84-86). -/
def rowTexts (b : List TCell) : List String :=
  (sortCol b).map (fun c => textOf c.words)

/-- Model of `pd.DataFrame(data_rows, columns=headers)` (line 90): with no
data rows the frame is empty with the given headers; otherwise ragged rows
are padded with NaN to the widest row, and pandas raises when the header
count differs from that width. -/
def mkPandasDF (headers : List String) (dataRows : List (List String)) : Except String DFrame :=
  if dataRows.isEmpty then .ok ⟨headers, []⟩
  else
    if headers.length = dataRows.foldl (fun acc r => max acc r.length) 0 then
      .ok ⟨headers, dataRows.map (fun r => r.map Val.s ++
        List.replicate (dataRows.foldl (fun acc r => max acc r.length) 0 - r.length) Val.nan)⟩
    else .error ("ValueError: columns passed, passed data had different width")

/-- The grid one table contributes (lines 81-91), given the carried-over
`current_row`: `none` when `current_table` stayed empty, otherwise the
frame with the first bucketed row as headers and the remaining rows as
data. -/
def tableGrid (cur0 : List TCell) (cells : List TCell) : Option (Except String DFrame) :=
  match (bucketTable cur0 cells).1 with
  | [] => none
  | b :: bs => some (mkPandasDF (rowTexts b) (bs.map rowTexts))

/-- Shallow embedding of `extract_tables_from_textract` (lines 42-95) over the
resolved per-table cell lists: tables are processed in order with the
`current_row` state threaded through (the code resets `current_table` but
not `current_row`), and a pandas construction error aborts the whole call. -/
def extract_tables_from_textract (tables : List (List TCell)) : Except String (List DFrame) :=
  let rec go (cur : List TCell) (acc : List DFrame) : List (List TCell) → Except String (List DFrame)
    | [] => .ok acc
    | t :: ts =>
      let p := bucketTable cur t
      match tableGrid cur t with
      | none => go p.2 acc ts
      | some (.error e) => .error e
      | some (.ok df) => go p.2 (acc ++ [df]) ts
  go [] [] tables

/-- Modelled from the spec: the dense grid the Cell Grid Builder is claimed to
produce — rows and columns ranging over `1..max_observed`, missing
positions filled with the empty string, each present cell's sub-fragments
space-joined.  Used only to compare the code's grid against the spec's
words. -/
def specDenseGrid (cells : List TCell) : List (List String) :=
  let mr := cells.foldl (fun acc c => max acc c.row) 0
  let mc := cells.foldl (fun acc c => max acc c.col) 0
  (List.range' 1 mr).map (fun i =>
    (List.range' 1 mc).map (fun j =>
      match cells.find? (fun c => c.row = i && c.col = j) with
      | some c => textOf c.words
      | none => ("")))

/-- The per-row effect of lines 109-112 of `clean_dataframe`: with both paid
columns present, clean both paid cells and set the Amount cell; otherwise
leave the row unchanged. -/
def paidStepRow (cols : List String) (r : List Val) : List Val :=
  if cols.contains ("Paid Out") && cols.contains ("Paid In") then
    setAmtRow cols (updAt (colIdx cols ("Paid In")) cleanCell (updAt (colIdx cols ("Paid Out")) cleanCell r))
  else r

/-- The column names after lines 109-112. -/
def cleanCols (cols : List String) : List String :=
  if cols.contains ("Paid Out") && cols.contains ("Paid In") then setAmtCols cols else cols

/-- The per-row effect of lines 113-114: convert the Date cell when a Date
column exists. -/
def dateStepRow (cols1 : List String) (r : List Val) : List Val :=
  if cols1.contains ("Date") then updAt (colIdx cols1 ("Date")) dtCell r else r

/-- The whole per-row transformation of `clean_dataframe` on the renamed
columns `cols`. -/
def cleanRowMap (cols : List String) (r : List Val) : List Val :=
  dateStepRow (cleanCols cols) (paidStepRow cols r)

/-- The whole per-row keep-predicate of `clean_dataframe` (lines 115-119),
evaluated on a transformed row: not all-NaN, Description not matching the
noise regex, and Amount nonzero. -/
def cleanKeep (cols : List String) (r : List Val) : Bool :=
  (r.any (fun v => !v.isNaB)) &&
  ((!noiseVal (cellAt r (colIdx (cleanCols cols) ("Description")))) &&
   (neZeroVal (cellAt r (colIdx (cleanCols cols) ("Amount")))))

/-- Space-joined concatenation of words ("left-to-right with single-space
separation"). -/
def joinSp : List String → String
  | [] => ("")
  | [w] => w
  | w :: ws => w ++ (" ") ++ joinSp ws

/-- A word that is nonempty and free of whitespace characters. -/
def wsFreeWord (w : String) : Bool :=
  !w.toList.isEmpty && w.toList.all (fun c => !isWS c)

/-- Counterexample frame for the forward-row claim: one "BALANCE CARRIED
FORWARD" row carrying the value "1,234.56" in the Balance column. -/
def c3df : DFrame :=
  ⟨[("Date"), ("Description"), ("Paid Out"), ("Paid In"), ("Balance")],
   [[.s ("01 Jan 24"), .s ("BALANCE CARRIED FORWARD"), .s (""), .s (""), .s ("1,234.56")]]⟩

/-- Witness frame for the noise-discard theorem: one surviving ordinary row. -/
def c3wdf : DFrame :=
  ⟨[("Date"), ("Description"), ("Paid Out"), ("Paid In"), ("Balance")],
   [[.s ("02 Jan 24"), .s ("COFFEE SHOP"), .s ("3.00"), .s (""), .s ("7.00")]]⟩

/-- Counterexample frame for the absent-amounts claim: the Paid out cell holds
the non-numeric text "abc". -/
def c4df : DFrame :=
  ⟨[("Date"), ("Payment type and details"), ("Paid out"), ("Paid in"), ("Balance")],
   [[.s ("01 Jan 24"), .s ("TESCO"), .s ("abc"), .s ("5.00"), .s ("10.00")]]⟩

/-- The frame `clean_dataframe` produces for `c4df`. -/
def c4out : DFrame :=
  ⟨[("Date"), ("Description"), ("Paid Out"), ("Paid In"), ("Balance"), ("Amount")],
   [[.date 2024 1 1, .s ("TESCO"), .f 0, .f 5, .s ("10.00"), .f 5]]⟩

/-- Failing frame for the totality claim: nonempty, with no Paid Out / Paid In
columns. -/
def c5df : DFrame :=
  ⟨[("Date"), ("Description"), ("Balance")],
   [[.s ("01 Jan 24"), .s ("Tesco"), .s ("10.00")]]⟩

/-- Witness frame for the conditional-totality theorem. -/
def c5wdf : DFrame :=
  ⟨[("Date"), ("Description"), ("Paid Out"), ("Paid In"), ("Balance")],
   [[.s ("03 Jan 24"), .s ("SHOP"), .s ("4.00"), .s (""), .s ("6.00")]]⟩

/-- Counterexample frame for the deduplication claim: two identical valid
transaction rows. -/
def c6df : DFrame :=
  ⟨[("Date"), ("Description"), ("Paid Out"), ("Paid In"), ("Balance")],
   [[.s ("01 Jan 24"), .s ("TESCO"), .s ("1.00"), .s (""), .s ("10.00")],
    [.s ("01 Jan 24"), .s ("TESCO"), .s ("1.00"), .s (""), .s ("10.00")]]⟩

/-- The transformed row shared by both output rows of `clean_dataframe c6df`. -/
def c6row : List Val :=
  [.date 2024 1 1, .s ("TESCO"), .f 1, .f 0, .s ("10.00"), .f (-1)]

/-- Input frame for the idempotence counterexample. -/
def c7df : DFrame :=
  ⟨[("Date"), ("Description"), ("Paid Out"), ("Paid In"), ("Balance")],
   [[.s ("05 Jan 24"), .s ("RENT"), .s ("2.00"), .s (""), .s ("8.00")]]⟩

/-- The frame `clean_dataframe` produces for `c7df`. -/
def c7out : DFrame :=
  ⟨[("Date"), ("Description"), ("Paid Out"), ("Paid In"), ("Balance"), ("Amount")],
   [[.date 2024 1 5, .s ("RENT"), .f 2, .f 0, .s ("8.00"), .f (-2)]]⟩

/-- Witness frame for the implicit zero-amount filter. -/
def c9df : DFrame :=
  ⟨[("Date"), ("Description"), ("Paid Out"), ("Paid In"), ("Balance")],
   [[.s ("06 Jan 24"), .s ("CAFE"), .s ("2.50"), .s (""), .s ("5.00")],
    [.s ("06 Jan 24"), .s ("VOID"), .s (""), .s (""), .s ("5.00")]]⟩

/-- Sparse one-table cell collection for the dense-fill counterexample: both
rows populate only columns 1 and 3. -/
def t8cells : List TCell :=
  [⟨1, 1, [("Date")]⟩, ⟨1, 3, [("Balance")]⟩,
   ⟨2, 1, [("15"), ("Jun"), ("25")]⟩, ⟨2, 3, [("487.50")]⟩]

/-- One-row table for the header-consumption witness. -/
def c10cells : List TCell :=
  [⟨1, 1, [("Date")]⟩, ⟨1, 2, [("Balance")]⟩]

/-- The single output row of `clean_dataframe c3wdf`. -/
def c3wrow : List Val :=
  [.date 2024 1 2, .s ("COFFEE SHOP"), .f 3, .f 0, .s ("7.00"), .f (-3)]

/-- The frame `clean_dataframe` produces for `c3wdf`. -/
def c3wout : DFrame :=
  ⟨[("Date"), ("Description"), ("Paid Out"), ("Paid In"), ("Balance"), ("Amount")], [c3wrow]⟩

/-- The single output row of `clean_dataframe c4df`. -/
def c4row : List Val :=
  [.date 2024 1 1, .s ("TESCO"), .f 0, .f 5, .s ("10.00"), .f 5]

/-- The frame `clean_dataframe` produces for `c6df`: the duplicate survives. -/
def c6out : DFrame :=
  ⟨[("Date"), ("Description"), ("Paid Out"), ("Paid In"), ("Balance"), ("Amount")], [c6row, c6row]⟩

/-- The single output row of `clean_dataframe c7df`. -/
def c7row : List Val :=
  [.date 2024 1 5, .s ("RENT"), .f 2, .f 0, .s ("8.00"), .f (-2)]

/-- The single output row of `clean_dataframe c9df` (the VOID row, whose paid
in and paid out are both coerced to 0, is dropped by the Amount filter). -/
def c9row : List Val :=
  [.date 2024 1 6, .s ("CAFE"), .f (mkRat 5 2), .f 0, .s ("5.00"), .f (mkRat (-5) 2)]

/-- The frame `clean_dataframe` produces for `c9df`. -/
def c9out : DFrame :=
  ⟨[("Date"), ("Description"), ("Paid Out"), ("Paid In"), ("Balance"), ("Amount")], [c9row]⟩

/-- Boolean success test for an embedded pandas computation. -/
def isOkB : Except String DFrame → Bool
  | .ok _ => true
  | .error _ => false

theorem colIdx_lt_length {cols : List String} {n : String} (h : n ∈ cols) :
    colIdx cols n < cols.length := by
  induction cols with
  | nil => cases h
  | cons c cs ih =>
    by_cases hc : c = n
    · simp [colIdx, hc]
    · rcases List.mem_cons.mp h with h1 | h2
      · exact absurd h1.symm hc
      · simpa [colIdx, hc] using ih h2

theorem getElem?_colIdx {cols : List String} {n : String} (h : n ∈ cols) :
    cols[colIdx cols n]? = some n := by
  induction cols with
  | nil => cases h
  | cons c cs ih =>
    by_cases hc : c = n
    · simp [colIdx, hc]
    · rcases List.mem_cons.mp h with h1 | h2
      · exact absurd h1.symm hc
      · simpa [colIdx, hc] using ih h2

theorem colIdx_ne {cols : List String} {a b : String} (ha : a ∈ cols) (hb : b ∈ cols)
    (hab : a ≠ b) : colIdx cols a ≠ colIdx cols b := by
  intro he
  have h1 := getElem?_colIdx ha
  have h2 := getElem?_colIdx hb
  rw [he, h2] at h1
  exact hab (Option.some.inj h1).symm

theorem colIdx_append_left {cols t : List String} {n : String} (h : n ∈ cols) :
    colIdx (cols ++ t) n = colIdx cols n := by
  induction cols with
  | nil => cases h
  | cons c cs ih =>
    by_cases hc : c = n
    · simp [colIdx, hc]
    · rcases List.mem_cons.mp h with h1 | h2
      · exact absurd h1.symm hc
      · simp [colIdx, hc, ih h2]

theorem cellAt_eq_getElem? (r : List Val) (j : Nat) : cellAt r j = (r[j]?).getD Val.nan := by
  simp [cellAt]

theorem cellAt_set_self {r : List Val} {j : Nat} (h : j < r.length) (v : Val) :
    cellAt (r.set j v) j = v := by
  simp [cellAt_eq_getElem?, List.getElem?_set_self h]

theorem cellAt_set_ne {r : List Val} {i j : Nat} (h : i ≠ j) (v : Val) :
    cellAt (r.set i v) j = cellAt r j := by
  simp [cellAt_eq_getElem?, List.getElem?_set_ne h]

theorem updAt_length (j : Nat) (f : Val → Val) (r : List Val) :
    (updAt j f r).length = r.length := by
  unfold updAt
  split <;> simp

theorem cellAt_updAt_self {r : List Val} {j : Nat} (f : Val → Val) (h : j < r.length) :
    cellAt (updAt j f r) j = f (cellAt r j) := by
  unfold updAt
  have hg : r.get? j = some r[j] := by
    rw [List.get?_eq_getElem?, List.getElem?_eq_getElem h]
  rw [hg]
  rw [cellAt_set_self h]
  simp [cellAt_eq_getElem?, List.getElem?_eq_getElem h]

theorem cellAt_updAt_ne {r : List Val} {i j : Nat} (f : Val → Val) (h : i ≠ j) :
    cellAt (updAt i f r) j = cellAt r j := by
  unfold updAt
  split
  · rw [cellAt_set_ne h]
  · rfl

theorem cellAt_append_lt {r t : List Val} {j : Nat} (h : j < r.length) :
    cellAt (r ++ t) j = cellAt r j := by
  simp [cellAt_eq_getElem?, List.getElem?_append_left h]

theorem setAmtRow_length_ge (cols : List String) (r : List Val) :
    r.length ≤ (setAmtRow cols r).length := by
  unfold setAmtRow
  split <;> simp

theorem dropWhile_head_false {α : Type} {p : α → Bool} {l : List α} {c : α} {cs : List α}
    (h : l.dropWhile p = c :: cs) : p c = false := by
  induction l with
  | nil => cases h
  | cons a l ih =>
    by_cases hp : p a
    · rw [List.dropWhile_cons_of_pos hp] at h
      exact ih h
    · rw [List.dropWhile_cons_of_neg hp] at h
      injection h with h1 h2
      subst h1
      simpa using hp

theorem stripChars_eq_rdrop (l : List Char) :
    stripChars l = List.rdropWhile isWS (List.dropWhile isWS l) := rfl

theorem stripChars_idem (l : List Char) : stripChars (stripChars l) = stripChars l := by
  rw [stripChars_eq_rdrop, stripChars_eq_rdrop]
  have hmid : List.dropWhile isWS (List.rdropWhile isWS (List.dropWhile isWS l)) =
      List.rdropWhile isWS (List.dropWhile isWS l) := by
    rw [List.dropWhile_eq_self_iff]
    have hpre := List.rdropWhile_prefix isWS (List.dropWhile isWS l)
    generalize hR : List.rdropWhile isWS (List.dropWhile isWS l) = R at hpre ⊢
    cases R with
    | nil =>
      intro hl
      simp at hl
    | cons c cs =>
      intro hl
      obtain ⟨t, ht⟩ := hpre
      have hc : isWS c = false := @dropWhile_head_false Char isWS l c (cs ++ t) (by
        rw [← ht]
        rfl)
      simpa [List.get] using hc
  rw [hmid, List.rdropWhile_idempotent]

theorem pyStrip_idem (s : String) : pyStrip (pyStrip s) = pyStrip s := by
  unfold pyStrip
  exact congrArg String.mk (stripChars_idem s.toList)

theorem renameCol_pyStrip_fix (c : String) :
    renameCol (pyStrip (renameCol (pyStrip c))) = renameCol (pyStrip c) := by
  by_cases h1 : pyStrip c = ("Date")
  · rw [show renameCol (pyStrip c) = ("Date") from by rw [h1]; decide]
    decide
  by_cases h2 : pyStrip c = ("Payment type and details")
  · rw [show renameCol (pyStrip c) = ("Description") from by rw [h2]; decide]
    decide
  by_cases h3 : pyStrip c = ("Paid out")
  · rw [show renameCol (pyStrip c) = ("Paid Out") from by rw [h3]; decide]
    decide
  by_cases h4 : pyStrip c = ("Paid in")
  · rw [show renameCol (pyStrip c) = ("Paid In") from by rw [h4]; decide]
    decide
  by_cases h5 : pyStrip c = ("Balance")
  · rw [show renameCol (pyStrip c) = ("Balance") from by rw [h5]; decide]
    decide
  · have hfix : renameCol (pyStrip c) = pyStrip c := by
      unfold renameCol
      rw [if_neg h1, if_neg h2, if_neg h3, if_neg h4, if_neg h5]
    rw [hfix, pyStrip_idem, hfix]

theorem normCols_idem (cols : List String) : normCols (normCols cols) = normCols cols := by
  unfold normCols
  rw [List.map_map]
  exact List.map_congr_left (fun c _ => renameCol_pyStrip_fix c)

theorem normCols_append (a b : List String) : normCols (a ++ b) = normCols a ++ normCols b := by
  simp [normCols]

theorem normCols_cleanCols_normCols (cols : List String) :
    normCols (cleanCols (normCols cols)) = cleanCols (normCols cols) := by
  unfold cleanCols setAmtCols
  split
  · split
    · exact normCols_idem cols
    · rw [normCols_append, normCols_idem]
      rfl
  · exact normCols_idem cols

theorem toNumericFillCol_ok {j : Nat} {rows rows' : List (List Val)}
    (h : toNumericFillCol j rows = .ok rows') : rows' = rows.map (updAt j cleanCell) := by
  unfold toNumericFillCol at h
  split at h
  · cases h
  · exact (Except.ok.inj h).symm

theorem noiseStep_ok {cols : List String} {rows rows' : List (List Val)}
    (h : noiseStep cols rows = .ok rows') :
    rows' = rows.filter (fun r => !noiseVal (cellAt r (colIdx cols ("Description")))) := by
  unfold noiseStep at h
  split at h
  · split at h
    · cases h
    · exact (Except.ok.inj h).symm
  · split at h
    · rename_i hmem hemp
      rw [List.isEmpty_iff] at hemp
      subst hemp
      simpa using (Except.ok.inj h).symm
    · cases h

theorem contains_iff {cols : List String} {n : String} :
    cols.contains n = true ↔ n ∈ cols := List.elem_iff

theorem mem_setAmtCols (cols : List String) : ("Amount") ∈ setAmtCols cols := by
  unfold setAmtCols
  split
  · exact contains_iff.mp (by assumption)
  · exact List.mem_append_right _ (by simp)

theorem mem_setAmtCols_of_mem {cols : List String} {n : String} (h : n ∈ cols) :
    n ∈ setAmtCols cols := by
  unfold setAmtCols
  split
  · exact h
  · exact List.mem_append_left _ h

theorem colIdx_setAmtCols {cols : List String} {n : String} (h : n ∈ cols) :
    colIdx (setAmtCols cols) n = colIdx cols n := by
  unfold setAmtCols
  split
  · rfl
  · exact colIdx_append_left h

theorem setAmtCols_length_ge (cols : List String) : cols.length ≤ (setAmtCols cols).length := by
  unfold setAmtCols
  split <;> simp

theorem bool_and_rot (a b c : Bool) : ((c && b) && a) = ((a && b) && c) := by
  cases a <;> cases b <;> cases c <;> rfl

theorem ratSub_eq_sub (a b : Rat) : ratSub a b = a - b := (Rat.sub_def' a b).symm

theorem ratNeg_eq_neg (a : Rat) : ratNeg a = -a := by
  unfold ratNeg
  rw [← Rat.num_neg_eq_neg_num, ← Rat.den_neg_eq_den, Rat.mkRat_self]

theorem bool_and_rot2 (a b c : Bool) : (c && (b && a)) = (a && (b && c)) := by
  cases a <;> cases b <;> cases c <;> rfl

theorem bool_and_rot3 (a b c : Bool) : ((c && b) && a) = (a && (b && c)) := by
  cases a <;> cases b <;> cases c <;> rfl

theorem exbind_ok {α β : Type} (x : α) (f : α → Except String β) :
    (Except.ok x : Except String α).bind f = f x := rfl

theorem exbind_error {α β : Type} (e : String) (f : α → Except String β) :
    (Except.error e : Except String α).bind f = Except.error e := rfl

theorem paidStep_ok {cols : List String} {rows : List (List Val)}
    {c : List String} {r : List (List Val)} (h : paidStep cols rows = .ok (c, r)) :
    c = cleanCols cols ∧ r = rows.map (paidStepRow cols) := by
  unfold paidStep at h
  split at h
  · rename_i hc
    cases hO : toNumericFillCol (colIdx cols ("Paid Out")) rows with
    | error e =>
      rw [hO, exbind_error] at h
      cases h
    | ok r1 =>
      rw [hO, exbind_ok] at h
      cases hI : toNumericFillCol (colIdx cols ("Paid In")) r1 with
      | error e =>
        rw [hI, exbind_error] at h
        cases h
      | ok r2 =>
        rw [hI, exbind_ok] at h
        injection h with h'
        injection h' with hcol hrow
        constructor
        · rw [← hcol]
          unfold cleanCols
          rw [if_pos hc]
        · rw [← hrow, toNumericFillCol_ok hI, toNumericFillCol_ok hO,
            List.map_map, List.map_map]
          refine List.map_congr_left (fun row _ => ?_)
          simp only [Function.comp]
          unfold paidStepRow
          rw [if_pos hc]
  · rename_i hc
    injection h with h'
    injection h' with hcol hrow
    constructor
    · rw [← hcol]
      unfold cleanCols
      rw [if_neg hc]
    · rw [← hrow]
      refine Eq.symm ?_
      refine Eq.trans (List.map_congr_left (fun row _ => ?_)) (List.map_id rows)
      unfold paidStepRow
      rw [if_neg hc]
      rfl

theorem postSteps_ok {cols1 : List String} {rows1 : List (List Val)} {out : DFrame}
    (h : postSteps cols1 rows1 = .ok out) :
    out.cols = cols1 ∧
    out.rows = (rows1.map (dateStepRow cols1)).filter
      (fun r => (r.any (fun v => !v.isNaB)) &&
        ((!noiseVal (cellAt r (colIdx cols1 ("Description")))) &&
          (neZeroVal (cellAt r (colIdx cols1 ("Amount")))))) := by
  unfold postSteps at h
  have hrows2 : (if cols1.contains ("Date") then
      rows1.map (updAt (colIdx cols1 ("Date")) dtCell) else rows1) =
      rows1.map (dateStepRow cols1) := by
    by_cases hd : cols1.contains ("Date") = true
    · rw [if_pos hd]
      refine List.map_congr_left (fun row _ => ?_)
      unfold dateStepRow
      rw [if_pos hd]
    · rw [if_neg hd]
      refine Eq.symm ?_
      refine Eq.trans (List.map_congr_left (fun row _ => ?_)) (List.map_id rows1)
      unfold dateStepRow
      rw [if_neg hd]
      rfl
  rw [hrows2] at h
  cases hn : noiseStep cols1 (((rows1.map (dateStepRow cols1))).filter
      (fun r => r.any (fun v => !v.isNaB))) with
  | error e =>
    rw [hn, exbind_error] at h
    cases h
  | ok rows4 =>
    rw [hn, exbind_ok] at h
    split at h
    · injection h with h'
      constructor
      · rw [← h']
      · rw [← h']
        show rows4.filter _ = _
        rw [noiseStep_ok hn, List.filter_filter, List.filter_filter]
        exact List.filter_congr (fun row _ => bool_and_rot3 _ _ _)
    · cases h

theorem cleanCore_ok {cols : List String} {rows : List (List Val)} {out : DFrame}
    (h : cleanCore cols rows = .ok out) :
    out.cols = cleanCols cols ∧
    out.rows = (rows.map (cleanRowMap cols)).filter (cleanKeep cols) := by
  unfold cleanCore at h
  cases hp : paidStep cols rows with
  | error e =>
    rw [hp, exbind_error] at h
    cases h
  | ok p =>
    rw [hp, exbind_ok] at h
    obtain ⟨c, r⟩ := p
    obtain ⟨hc, hr⟩ := paidStep_ok hp
    obtain ⟨h1, h2⟩ := postSteps_ok h
    constructor
    · rw [h1, hc]
    · rw [h2, hc, hr, List.map_map]
      rfl

theorem clean_ok_spec {df : DFrame} {out : DFrame} (hne : df.emptyB = false)
    (h : clean_dataframe df = .ok out) :
    out.cols = cleanCols (normCols df.cols) ∧
    out.rows = (df.rows.map (cleanRowMap (normCols df.cols))).filter
      (cleanKeep (normCols df.cols)) := by
  unfold clean_dataframe at h
  rw [hne] at h
  simp only [Bool.false_eq_true, if_false] at h
  exact cleanCore_ok h

theorem colIdx_append_self {cols : List String} {n : String} (h : n ∉ cols) :
    colIdx (cols ++ [n]) n = cols.length := by
  induction cols with
  | nil => simp [colIdx]
  | cons c cs ih =>
    have hc : c ≠ n := fun he => h (he ▸ List.mem_cons_self c cs)
    simp only [List.cons_append, colIdx, if_neg hc, List.length_cons]
    exact congrArg (· + 1) (ih (fun hm => h (List.mem_cons_of_mem c hm)))

theorem cellAt_append_self (r : List Val) (v : Val) : cellAt (r ++ [v]) r.length = v := by
  simp [cellAt_eq_getElem?, List.getElem?_append_right (Nat.le_refl r.length)]

theorem cellAt_mem {r : List Val} {j : Nat} (h : j < r.length) : cellAt r j ∈ r := by
  rw [cellAt_eq_getElem?, List.getElem?_eq_getElem h]
  exact List.getElem_mem h

theorem mem_cleanCols_of_mem {cols : List String} {n : String} (h : n ∈ cols) :
    n ∈ cleanCols cols := by
  unfold cleanCols
  split
  · exact mem_setAmtCols_of_mem h
  · exact h

theorem colIdx_cleanCols_of_mem {cols : List String} {n : String} (h : n ∈ cols) :
    colIdx (cleanCols cols) n = colIdx cols n := by
  unfold cleanCols
  split
  · exact colIdx_setAmtCols h
  · rfl

theorem mem_of_mem_setAmtCols {cols : List String} {n : String} (hne : n ≠ ("Amount"))
    (h : n ∈ setAmtCols cols) : n ∈ cols := by
  unfold setAmtCols at h
  split at h
  · exact h
  · rcases List.mem_append.mp h with h1 | h2
    · exact h1
    · exact absurd (List.mem_singleton.mp h2) hne

theorem mem_of_mem_cleanCols {cols : List String} {n : String} (hne : n ≠ ("Amount"))
    (h : n ∈ cleanCols cols) : n ∈ cols := by
  unfold cleanCols at h
  split at h
  · exact mem_of_mem_setAmtCols hne h
  · exact h

theorem cleanCols_length_ge (cols : List String) : cols.length ≤ (cleanCols cols).length := by
  unfold cleanCols
  split
  · exact setAmtCols_length_ge cols
  · exact Nat.le_refl _

theorem setAmtRow_cell_preserve {cols : List String} {r : List Val} {j : Nat}
    (hj : j < cols.length) (hlen : r.length = cols.length)
    (hne : cols.contains ("Amount") = true → j ≠ colIdx cols ("Amount")) :
    cellAt (setAmtRow cols r) j = cellAt r j := by
  unfold setAmtRow
  split
  · rename_i hA
    exact cellAt_set_ne (Ne.symm (hne hA)) _
  · exact cellAt_append_lt (hlen ▸ hj)

theorem dateStepRow_cell_preserve {cols1 : List String} {r : List Val} {j : Nat}
    (hne : cols1.contains ("Date") = true → j ≠ colIdx cols1 ("Date")) :
    cellAt (dateStepRow cols1 r) j = cellAt r j := by
  unfold dateStepRow
  split
  · rename_i hd
    exact cellAt_updAt_ne _ (Ne.symm (hne hd))
  · rfl

theorem upd2_cell_O {cols : List String} {r : List Val}
    (hPO : ("Paid Out") ∈ cols) (hPI : ("Paid In") ∈ cols) (hlen : r.length = cols.length) :
    cellAt (updAt (colIdx cols ("Paid In")) cleanCell
      (updAt (colIdx cols ("Paid Out")) cleanCell r)) (colIdx cols ("Paid Out")) =
    cleanCell (cellAt r (colIdx cols ("Paid Out"))) := by
  rw [cellAt_updAt_ne _ (colIdx_ne hPI hPO (by decide)),
    cellAt_updAt_self _ (hlen ▸ colIdx_lt_length hPO)]

theorem upd2_cell_I {cols : List String} {r : List Val}
    (hPO : ("Paid Out") ∈ cols) (hPI : ("Paid In") ∈ cols) (hlen : r.length = cols.length) :
    cellAt (updAt (colIdx cols ("Paid In")) cleanCell
      (updAt (colIdx cols ("Paid Out")) cleanCell r)) (colIdx cols ("Paid In")) =
    cleanCell (cellAt r (colIdx cols ("Paid In"))) := by
  rw [cellAt_updAt_self _ (by rw [updAt_length]; exact hlen ▸ colIdx_lt_length hPI),
    cellAt_updAt_ne _ (colIdx_ne hPO hPI (by decide))]

theorem upd2_length {cols : List String} {r : List Val} :
    (updAt (colIdx cols ("Paid In")) cleanCell
      (updAt (colIdx cols ("Paid Out")) cleanCell r)).length = r.length := by
  rw [updAt_length, updAt_length]

theorem upd2_cell_other {cols : List String} {r : List Val} {j : Nat}
    (h1 : j ≠ colIdx cols ("Paid Out")) (h2 : j ≠ colIdx cols ("Paid In")) :
    cellAt (updAt (colIdx cols ("Paid In")) cleanCell
      (updAt (colIdx cols ("Paid Out")) cleanCell r)) j = cellAt r j := by
  rw [cellAt_updAt_ne _ (Ne.symm h2), cellAt_updAt_ne _ (Ne.symm h1)]

theorem paid_contains_true {cols : List String}
    (hPO : ("Paid Out") ∈ cols) (hPI : ("Paid In") ∈ cols) :
    (cols.contains ("Paid Out") && cols.contains ("Paid In")) = true := by
  rw [contains_iff.mpr hPO, contains_iff.mpr hPI]
  rfl

theorem cleanRowMap_cell_PO {cols : List String} {r : List Val}
    (hPO : ("Paid Out") ∈ cols) (hPI : ("Paid In") ∈ cols) (hlen : r.length = cols.length) :
    cellAt (cleanRowMap cols r) (colIdx cols ("Paid Out")) =
    cleanCell (cellAt r (colIdx cols ("Paid Out"))) := by
  unfold cleanRowMap
  rw [dateStepRow_cell_preserve (fun hd => by
    have hDm : ("Date") ∈ cols := mem_of_mem_cleanCols (by decide) (contains_iff.mp hd)
    rw [colIdx_cleanCols_of_mem hDm]
    exact colIdx_ne hPO hDm (by decide))]
  unfold paidStepRow
  rw [if_pos (paid_contains_true hPO hPI)]
  rw [setAmtRow_cell_preserve (colIdx_lt_length hPO)
    (by rw [upd2_length]; exact hlen)
    (fun hA => colIdx_ne hPO (contains_iff.mp hA) (by decide))]
  exact upd2_cell_O hPO hPI hlen

theorem cleanRowMap_cell_PI {cols : List String} {r : List Val}
    (hPO : ("Paid Out") ∈ cols) (hPI : ("Paid In") ∈ cols) (hlen : r.length = cols.length) :
    cellAt (cleanRowMap cols r) (colIdx cols ("Paid In")) =
    cleanCell (cellAt r (colIdx cols ("Paid In"))) := by
  unfold cleanRowMap
  rw [dateStepRow_cell_preserve (fun hd => by
    have hDm : ("Date") ∈ cols := mem_of_mem_cleanCols (by decide) (contains_iff.mp hd)
    rw [colIdx_cleanCols_of_mem hDm]
    exact colIdx_ne hPI hDm (by decide))]
  unfold paidStepRow
  rw [if_pos (paid_contains_true hPO hPI)]
  rw [setAmtRow_cell_preserve (colIdx_lt_length hPI)
    (by rw [upd2_length]; exact hlen)
    (fun hA => colIdx_ne hPI (contains_iff.mp hA) (by decide))]
  exact upd2_cell_I hPO hPI hlen

theorem amount_mem_cleanCols {cols : List String}
    (hPO : ("Paid Out") ∈ cols) (hPI : ("Paid In") ∈ cols) : ("Amount") ∈ cleanCols cols := by
  unfold cleanCols
  rw [if_pos (paid_contains_true hPO hPI)]
  exact mem_setAmtCols cols

theorem cleanRowMap_cell_amount {cols : List String} {r : List Val}
    (hPO : ("Paid Out") ∈ cols) (hPI : ("Paid In") ∈ cols) (hlen : r.length = cols.length) :
    cellAt (cleanRowMap cols r) (colIdx (cleanCols cols) ("Amount")) =
    Val.f (ratSub (cleanCell (cellAt r (colIdx cols ("Paid In")))).ratOf
      (cleanCell (cellAt r (colIdx cols ("Paid Out")))).ratOf) := by
  unfold cleanRowMap
  rw [dateStepRow_cell_preserve (fun hd =>
    colIdx_ne (amount_mem_cleanCols hPO hPI) (contains_iff.mp hd) (by decide))]
  unfold paidStepRow
  rw [if_pos (paid_contains_true hPO hPI)]
  have hcc : cleanCols cols = setAmtCols cols := by
    unfold cleanCols
    rw [if_pos (paid_contains_true hPO hPI)]
  rw [hcc]
  unfold setAmtRow
  split
  · rename_i hA
    have hsc : setAmtCols cols = cols := by
      unfold setAmtCols
      rw [if_pos hA]
    rw [hsc, cellAt_set_self (by
      rw [upd2_length, hlen]
      exact colIdx_lt_length (contains_iff.mp hA))]
    unfold amtValRow
    rw [upd2_cell_I hPO hPI hlen, upd2_cell_O hPO hPI hlen]
  · rename_i hA
    have hsc : setAmtCols cols = cols ++ [("Amount")] := by
      unfold setAmtCols
      rw [if_neg hA]
    rw [hsc, colIdx_append_self (fun hm => hA (contains_iff.mpr hm))]
    rw [show cols.length = (updAt (colIdx cols ("Paid In")) cleanCell
      (updAt (colIdx cols ("Paid Out")) cleanCell r)).length from by rw [upd2_length, hlen]]
    rw [cellAt_append_self]
    unfold amtValRow
    rw [upd2_cell_I hPO hPI hlen, upd2_cell_O hPO hPI hlen]

theorem cleanRowMap_cell_other {cols : List String} {r : List Val} {n : String}
    (hn : n ∈ cols) (hlen : r.length = cols.length)
    (h1 : n ≠ ("Paid Out")) (h2 : n ≠ ("Paid In")) (h3 : n ≠ ("Amount")) (h4 : n ≠ ("Date")) :
    cellAt (cleanRowMap cols r) (colIdx cols n) = cellAt r (colIdx cols n) := by
  unfold cleanRowMap
  rw [dateStepRow_cell_preserve (fun hd => by
    have hDm : ("Date") ∈ cols := mem_of_mem_cleanCols (by decide) (contains_iff.mp hd)
    rw [colIdx_cleanCols_of_mem hDm]
    exact colIdx_ne hn hDm h4)]
  unfold paidStepRow
  split
  · rename_i hc
    obtain ⟨hPOb, hPIb⟩ := Bool.and_eq_true_iff.mp hc
    have hPO := contains_iff.mp hPOb
    have hPI := contains_iff.mp hPIb
    rw [setAmtRow_cell_preserve (colIdx_lt_length hn)
      (by rw [upd2_length]; exact hlen)
      (fun hA => colIdx_ne hn (contains_iff.mp hA) h3)]
    exact upd2_cell_other (colIdx_ne hn hPO h1) (colIdx_ne hn hPI h2)
  · rfl

theorem cleanCell_isF (v : Val) : (cleanCell v).isFB = true := by
  cases v <;> rfl

theorem cleanCell_not_str (v : Val) : (cleanCell v).isStrB = false := by
  cases v <;> rfl

theorem cleanCell_f_ratOf (v : Val) : cleanCell v = Val.f (cleanCell v).ratOf := by
  cases v <;> rfl

theorem normCols_length (cols : List String) : (normCols cols).length = cols.length :=
  List.length_map cols _

/-- Every output row of a successful nonempty `clean_dataframe` run is the
per-row transform of some input row, and passes the keep-predicate. -/
theorem out_row_form {df out : DFrame} (hne : df.emptyB = false)
    (h : clean_dataframe df = .ok out) :
    ∀ r ∈ out.rows, ∃ r0, r0 ∈ df.rows ∧ r = cleanRowMap (normCols df.cols) r0 ∧
      cleanKeep (normCols df.cols) r = true := by
  intro r hr
  obtain ⟨_, hrows⟩ := clean_ok_spec hne h
  rw [hrows] at hr
  obtain ⟨hmem, hkeep⟩ := List.mem_filter.mp hr
  obtain ⟨r0, hr0, hform⟩ := List.mem_map.mp hmem
  exact ⟨r0, hr0, hform.symm, hform ▸ hkeep⟩

theorem row_len_norm {df : DFrame} (hrect : df.Rect) {r0 : List Val} (h : r0 ∈ df.rows) :
    r0.length = (normCols df.cols).length := by
  rw [normCols_length]
  exact hrect r0 h

/-- C3 counterexample: the claim says a "balance carried forward" row with
value "1,234.56" yields an emitted transaction with that balance and is
never discarded as noise; but `clean_dataframe` on the one-row frame
`c3df`, whose row is exactly such a forward row, returns an empty frame —
the forward marker matches the noise regex of line 117 and the row is
dropped, so no transaction is emitted for it. -/
theorem c3_forward_row_counterexample :
    containsNoise ("BALANCE CARRIED FORWARD") = true ∧
    parseNum ("1234.56") = some (mkRat 123456 100) ∧
    clean_dataframe c3df =
      .ok ⟨[("Date"), ("Description"), ("Paid Out"), ("Paid In"), ("Balance"), ("Amount")], []⟩ := by
  refine ⟨by decide, by decide, by decide⟩

/-- C3 (amended): rows whose Description matches the noise regex — which
includes the "balance brought forward" and "balance carried forward"
markers — are discarded by `clean_dataframe`, never emitted: every row of
a successful nonempty run's output has a Description cell that does not
match the noise regex. -/
theorem c3_forward_rows_discarded (df out : DFrame) (hne : df.emptyB = false)
    (h : clean_dataframe df = .ok out) :
    (containsNoise ("BALANCE BROUGHT FORWARD") = true ∧
     containsNoise ("BALANCE CARRIED FORWARD") = true) ∧
    ∀ r ∈ out.rows, noiseVal (cellAt r (colIdx out.cols ("Description"))) = false := by
  refine ⟨⟨by decide, by decide⟩, ?_⟩
  intro r hr
  obtain ⟨hcols, _⟩ := clean_ok_spec hne h
  obtain ⟨r0, _, _, hkeep⟩ := out_row_form hne h r hr
  unfold cleanKeep at hkeep
  obtain ⟨_, bc⟩ := Bool.and_eq_true_iff.mp hkeep
  obtain ⟨hnoise, _⟩ := Bool.and_eq_true_iff.mp bc
  rw [hcols]
  simpa using hnoise

/-- C3 witness: the amended theorem applied to the concrete frame `c3wdf`,
whose single ordinary row survives with a noise-free Description. -/
theorem c3_forward_rows_discarded_witness :
    noiseVal (cellAt c3wrow (colIdx c3wout.cols ("Description"))) = false :=
  (c3_forward_rows_discarded c3wdf c3wout (by decide) (by decide)).2 c3wrow (by decide)

/-- C4 counterexample: the claim says a monetary cell whose source is missing
or non-numeric is recorded as absent, never coerced to the number zero;
but for `c4df`, whose Paid out cell holds the non-numeric text "abc"
(which `pd.to_numeric` cannot parse), the output records Paid Out as the
number 0 — `fillna(0)` on line 110 coerces it. -/
theorem c4_zero_coercion_counterexample :
    parseNum (pyReplace (pyReplace ("abc") (",") ("")) ("£") ("")) = none ∧
    clean_dataframe c4df = .ok c4out ∧
    cellAt c4row (colIdx c4out.cols ("Paid Out")) = Val.f 0 ∧
    c4out.rows = [c4row] := by
  refine ⟨by decide, by decide, by decide, by decide⟩

/-- C4 (amended): when both paid columns are present, `clean_dataframe`
coerces every Paid Out and Paid In cell of its output to a number (missing
and non-numeric cells become the number 0 under `fillna(0)`); the fields
are never left absent. -/
theorem c4_paid_cells_numeric (df out : DFrame) (hrect : df.Rect) (hne : df.emptyB = false)
    (hPO : ("Paid Out") ∈ normCols df.cols) (hPI : ("Paid In") ∈ normCols df.cols)
    (h : clean_dataframe df = .ok out) :
    ∀ r ∈ out.rows, (cellAt r (colIdx out.cols ("Paid Out"))).isFB = true ∧
      (cellAt r (colIdx out.cols ("Paid In"))).isFB = true := by
  intro r hr
  obtain ⟨hcols, _⟩ := clean_ok_spec hne h
  obtain ⟨r0, hr0, hform, _⟩ := out_row_form hne h r hr
  have hlen := row_len_norm hrect hr0
  rw [hcols, colIdx_cleanCols_of_mem hPO, colIdx_cleanCols_of_mem hPI, hform,
    cleanRowMap_cell_PO hPO hPI hlen, cleanRowMap_cell_PI hPO hPI hlen]
  exact ⟨cleanCell_isF _, cleanCell_isF _⟩

/-- C4 witness: the amended theorem applied to `c4df`; the output row carries
numeric Paid Out and Paid In cells. -/
theorem c4_paid_cells_numeric_witness :
    (cellAt c4row (colIdx c4out.cols ("Paid Out"))).isFB = true ∧
    (cellAt c4row (colIdx c4out.cols ("Paid In"))).isFB = true :=
  c4_paid_cells_numeric c4df c4out (by decide) (by decide) (by decide) (by decide)
    (by decide) c4row (by decide)

/-- C6 counterexample: the claim says exact duplicate rows are removed by the
normalizer; but `clean_dataframe` keeps both copies of the duplicated row
of `c6df` — no deduplication is performed anywhere in lines 97-121. -/
theorem c6_duplicates_survive_counterexample :
    clean_dataframe c6df = .ok c6out ∧
    c6out.rows = [c6row, c6row] ∧
    c6out.rows.count c6row = 2 := by
  refine ⟨by decide, by decide, by decide⟩

/-- C6 (amended): the normalizer performs no deduplication: the output of a
successful nonempty run is exactly a per-row transformation of the input
rows followed by a per-row filter, in input order, so duplicates that pass
the filter all remain and order of surviving rows is preserved. -/
theorem c6_normalizer_is_map_filter (df out : DFrame) (hne : df.emptyB = false)
    (h : clean_dataframe df = .ok out) :
    out.cols = cleanCols (normCols df.cols) ∧
    out.rows = (df.rows.map (cleanRowMap (normCols df.cols))).filter
      (cleanKeep (normCols df.cols)) :=
  clean_ok_spec hne h

/-- C6 witness: the amended theorem applied to `c6df`: the duplicated input
row yields the duplicated output row list. -/
theorem c6_normalizer_is_map_filter_witness :
    c6out.rows = (c6df.rows.map (cleanRowMap (normCols c6df.cols))).filter
      (cleanKeep (normCols c6df.cols)) :=
  (c6_normalizer_is_map_filter c6df c6out (by decide) (by decide)).2

/-- C9: implicit zero-amount filter.  When the input frame has both a Paid Out
and a Paid In column, every row of the normalizer's output carries
`Amount = Paid In - Paid Out` and that difference is nonzero: any
transaction whose (coerced) paid-in equals its paid-out — including rows
where both are missing and become 0 — is silently dropped by the
`df[df['Amount'] != 0]` filter of line 119. -/
theorem c9_zero_amount_rows_dropped (df out : DFrame) (hrect : df.Rect)
    (hne : df.emptyB = false)
    (hPO : ("Paid Out") ∈ normCols df.cols) (hPI : ("Paid In") ∈ normCols df.cols)
    (h : clean_dataframe df = .ok out) :
    ∀ r ∈ out.rows,
      cellAt r (colIdx out.cols ("Amount")) =
        Val.f (ratSub (cellAt r (colIdx out.cols ("Paid In"))).ratOf
          (cellAt r (colIdx out.cols ("Paid Out"))).ratOf) ∧
      ratSub (cellAt r (colIdx out.cols ("Paid In"))).ratOf
        (cellAt r (colIdx out.cols ("Paid Out"))).ratOf ≠ 0 := by
  intro r hr
  obtain ⟨hcols, _⟩ := clean_ok_spec hne h
  obtain ⟨r0, hr0, hform, hkeep⟩ := out_row_form hne h r hr
  have hlen := row_len_norm hrect hr0
  have hpi : cellAt r (colIdx out.cols ("Paid In")) =
      cleanCell (cellAt r0 (colIdx (normCols df.cols) ("Paid In"))) := by
    rw [hcols, colIdx_cleanCols_of_mem hPI, hform, cleanRowMap_cell_PI hPO hPI hlen]
  have hpo : cellAt r (colIdx out.cols ("Paid Out")) =
      cleanCell (cellAt r0 (colIdx (normCols df.cols) ("Paid Out"))) := by
    rw [hcols, colIdx_cleanCols_of_mem hPO, hform, cleanRowMap_cell_PO hPO hPI hlen]
  have hamt : cellAt r (colIdx out.cols ("Amount")) =
      Val.f (ratSub (cleanCell (cellAt r0 (colIdx (normCols df.cols) ("Paid In")))).ratOf
        (cleanCell (cellAt r0 (colIdx (normCols df.cols) ("Paid Out")))).ratOf) := by
    rw [hcols, hform, cleanRowMap_cell_amount hPO hPI hlen]
  constructor
  · rw [hamt, hpi, hpo]
  · unfold cleanKeep at hkeep
    obtain ⟨_, bc⟩ := Bool.and_eq_true_iff.mp hkeep
    obtain ⟨_, hnz⟩ := Bool.and_eq_true_iff.mp bc
    rw [hpi, hpo]
    have hcell : cellAt r (colIdx (cleanCols (normCols df.cols)) ("Amount")) =
        Val.f (ratSub (cleanCell (cellAt r0 (colIdx (normCols df.cols) ("Paid In")))).ratOf
          (cleanCell (cellAt r0 (colIdx (normCols df.cols) ("Paid Out")))).ratOf) := by
      rw [hform, cleanRowMap_cell_amount hPO hPI hlen]
    rw [hcell] at hnz
    unfold neZeroVal at hnz
    simpa using hnz

/-- C9 witness: the theorem applied to `c9df`: the surviving CAFE row has
`Amount = 0 - 5/2 ≠ 0`, while the VOID row (both paid cells empty, both
coerced to 0) was dropped. -/
theorem c9_zero_amount_rows_dropped_witness :
    cellAt c9row (colIdx c9out.cols ("Amount")) =
      Val.f (ratSub (cellAt c9row (colIdx c9out.cols ("Paid In"))).ratOf
        (cellAt c9row (colIdx c9out.cols ("Paid Out"))).ratOf) ∧
    ratSub (cellAt c9row (colIdx c9out.cols ("Paid In"))).ratOf
      (cellAt c9row (colIdx c9out.cols ("Paid Out"))).ratOf ≠ 0 :=
  c9_zero_amount_rows_dropped c9df c9out (by decide) (by decide) (by decide) (by decide)
    (by decide) c9row (by decide)

/-- C7 counterexample: the claim says applying the normalizer to its own
output is a no-op; but for `c7df` the first run succeeds with a nonempty
output whose Paid Out / Paid In columns are numeric, and the second run
raises — `.str.replace` on line 110 rejects a numeric column.  Rerunning
is an error, not a no-op. -/
theorem c7_not_idempotent_counterexample :
    clean_dataframe c7df = .ok c7out ∧
    c7out.rows = [c7row] ∧
    clean_dataframe c7out = .error strAccErr := by
  refine ⟨by decide, by decide, by decide⟩

/-- C7 (amended): normalization is a fixed point only on empty output.  On any
successful run of a well-formed frame: an empty output is returned
unchanged by a second run, while a nonempty output that has Paid Out and
Paid In columns makes the second run raise `AttributeError` (the first run
left those columns numeric, and the string-replace step of line 110
requires string values). -/
theorem c7_rerun_raises (df out : DFrame) (hrect : df.Rect)
    (h : clean_dataframe df = .ok out) :
    (out.rows = [] → clean_dataframe out = .ok out) ∧
    (("Paid Out") ∈ out.cols → ("Paid In") ∈ out.cols → out.rows ≠ [] →
      clean_dataframe out = .error strAccErr) := by
  constructor
  · intro h0
    unfold clean_dataframe
    rw [if_pos (by simp [DFrame.emptyB, h0])]
  · intro hPO' hPI' hnz
    by_cases hne : df.emptyB = true
    · unfold clean_dataframe at h
      rw [if_pos hne] at h
      injection h with h'
      subst h'
      unfold DFrame.emptyB at hne
      rcases Bool.or_eq_true_iff.mp hne with h1 | h2
      · exact absurd (List.isEmpty_iff.mp h1) hnz
      · rw [List.isEmpty_iff.mp h2] at hPO'
        exact absurd hPO' (List.not_mem_nil _)
    · have hne' : df.emptyB = false := eq_false_of_ne_true hne
      obtain ⟨hcols, _⟩ := clean_ok_spec hne' h
      have hPOm : ("Paid Out") ∈ normCols df.cols :=
        mem_of_mem_cleanCols (by decide) (hcols ▸ hPO')
      have hPIm : ("Paid In") ∈ normCols df.cols :=
        mem_of_mem_cleanCols (by decide) (hcols ▸ hPI')
      have hfix : normCols out.cols = out.cols := by
        rw [hcols]
        exact normCols_cleanCols_normCols df.cols
      have hrowsE : out.rows.isEmpty = false := List.isEmpty_eq_false.mpr hnz
      have hcolsE : out.cols.isEmpty = false := by
        apply List.isEmpty_eq_false.mpr
        intro hc0
        rw [hc0] at hPO'
        exact absurd hPO' (List.not_mem_nil _)
      unfold clean_dataframe
      rw [show out.emptyB = false from by
        unfold DFrame.emptyB
        rw [hrowsE, hcolsE]
        rfl]
      simp only [Bool.false_eq_true, if_false]
      rw [hfix]
      unfold cleanCore paidStep
      rw [if_pos (paid_contains_true hPO' hPI')]
      have hguard : (!out.rows.isEmpty &&
          out.rows.all (fun r => !(cellAt r (colIdx out.cols ("Paid Out"))).isStrB)) = true := by
        apply Bool.and_eq_true_iff.mpr
        refine ⟨by rw [hrowsE]; rfl, ?_⟩
        rw [List.all_eq_true]
        intro r hr
        obtain ⟨r0, hr0, hform, _⟩ := out_row_form hne' h r hr
        have hlen := row_len_norm hrect hr0
        have hcell : cellAt r (colIdx out.cols ("Paid Out")) =
            cleanCell (cellAt r0 (colIdx (normCols df.cols) ("Paid Out"))) := by
          rw [hcols, colIdx_cleanCols_of_mem hPOm, hform,
            cleanRowMap_cell_PO hPOm hPIm hlen]
        rw [hcell, cleanCell_not_str]
        rfl
      unfold toNumericFillCol
      rw [hguard]
      rfl

/-- C7 witness: the amended theorem applied to `c7df` and its output. -/
theorem c7_rerun_raises_witness : clean_dataframe c7out = .error strAccErr :=
  (c7_rerun_raises c7df c7out (by decide) (by decide)).2 (by decide) (by decide) (by decide)

/-- C5 counterexample: the claim says interpretation and normalization
complete without any exception for every grid, including grids missing
expected columns; but `clean_dataframe` on the nonempty frame `c5df`,
which has no Paid Out / Paid In columns, raises `KeyError` at line 119
(`df['Amount']` with no Amount column ever created). -/
theorem c5_keyerror_counterexample : clean_dataframe c5df = .error keyErrAmount := by
  decide

/-- C5 (amended): `clean_dataframe` completes without exception on every
well-formed all-string frame that carries Paid Out, Paid In and
Description columns (and on every empty frame); a nonempty frame missing
the paid columns raises `KeyError('Amount')` instead of discarding rows. -/
theorem c5_totality_with_columns (df : DFrame) (hrect : df.Rect)
    (hstr : ∀ r ∈ df.rows, ∀ v ∈ r, v.isStrB = true)
    (hPO : ("Paid Out") ∈ normCols df.cols) (hPI : ("Paid In") ∈ normCols df.cols)
    (hD : ("Description") ∈ normCols df.cols) :
    isOkB (clean_dataframe df) = true := by
  by_cases hne : df.emptyB = true
  · unfold clean_dataframe
    rw [if_pos hne]
    rfl
  · have hne' : df.emptyB = false := eq_false_of_ne_true hne
    unfold clean_dataframe
    rw [hne']
    simp only [Bool.false_eq_true, if_false]
    have hrne : df.rows ≠ [] := by
      intro h0
      apply hne
      unfold DFrame.emptyB
      rw [h0]
      rfl
    have hg1 : (!df.rows.isEmpty &&
        df.rows.all (fun r => !(cellAt r (colIdx (normCols df.cols) ("Paid Out"))).isStrB)) = false := by
      rcases hx : df.rows with _ | ⟨r0, rs⟩
      · exact absurd hx hrne
      · have hr0m : r0 ∈ df.rows := by
          rw [hx]
          exact List.mem_cons_self _ _
        have hlen := row_len_norm hrect hr0m
        have hs : (cellAt r0 (colIdx (normCols df.cols) ("Paid Out"))).isStrB = true :=
          hstr r0 hr0m _ (cellAt_mem (by rw [hlen]; exact colIdx_lt_length hPO))
        simp only [List.all_cons, hs]
        rfl
    have h1 : toNumericFillCol (colIdx (normCols df.cols) ("Paid Out")) df.rows =
        .ok (df.rows.map (updAt (colIdx (normCols df.cols) ("Paid Out")) cleanCell)) := by
      unfold toNumericFillCol
      rw [hg1]
      simp only [Bool.false_eq_true, if_false]
    have hg2 : (!(df.rows.map (updAt (colIdx (normCols df.cols) ("Paid Out")) cleanCell)).isEmpty &&
        (df.rows.map (updAt (colIdx (normCols df.cols) ("Paid Out")) cleanCell)).all
          (fun r => !(cellAt r (colIdx (normCols df.cols) ("Paid In"))).isStrB)) = false := by
      rcases hx : df.rows with _ | ⟨r0, rs⟩
      · exact absurd hx hrne
      · have hr0m : r0 ∈ df.rows := by
          rw [hx]
          exact List.mem_cons_self _ _
        have hlen := row_len_norm hrect hr0m
        have hs : (cellAt (updAt (colIdx (normCols df.cols) ("Paid Out")) cleanCell r0)
            (colIdx (normCols df.cols) ("Paid In"))).isStrB = true := by
          rw [cellAt_updAt_ne _ (colIdx_ne hPO hPI (by decide))]
          exact hstr r0 hr0m _ (cellAt_mem (by rw [hlen]; exact colIdx_lt_length hPI))
        simp only [List.map_cons, List.all_cons, hs]
        rfl
    have h2 : toNumericFillCol (colIdx (normCols df.cols) ("Paid In"))
        (df.rows.map (updAt (colIdx (normCols df.cols) ("Paid Out")) cleanCell)) =
        .ok ((df.rows.map (updAt (colIdx (normCols df.cols) ("Paid Out")) cleanCell)).map
          (updAt (colIdx (normCols df.cols) ("Paid In")) cleanCell)) := by
      unfold toNumericFillCol
      rw [hg2]
      simp only [Bool.false_eq_true, if_false]
    have hcore : cleanCore (normCols df.cols) df.rows =
        postSteps (setAmtCols (normCols df.cols))
          (((df.rows.map (updAt (colIdx (normCols df.cols) ("Paid Out")) cleanCell)).map
            (updAt (colIdx (normCols df.cols) ("Paid In")) cleanCell)).map
              (setAmtRow (normCols df.cols))) := by
      unfold cleanCore paidStep
      rw [if_pos (paid_contains_true hPO hPI)]
      simp only [h1, exbind_ok, h2]
    rw [hcore]
    have hccols : cleanCols (normCols df.cols) = setAmtCols (normCols df.cols) := by
      unfold cleanCols
      rw [if_pos (paid_contains_true hPO hPI)]
    have hr2form : ((df.rows.map (updAt (colIdx (normCols df.cols) ("Paid Out")) cleanCell)).map
        (updAt (colIdx (normCols df.cols) ("Paid In")) cleanCell)).map
          (setAmtRow (normCols df.cols)) = df.rows.map (paidStepRow (normCols df.cols)) := by
      rw [List.map_map, List.map_map]
      refine List.map_congr_left (fun r _ => ?_)
      simp only [Function.comp]
      unfold paidStepRow
      rw [if_pos (paid_contains_true hPO hPI)]
    have hrowsform : (if (setAmtCols (normCols df.cols)).contains ("Date") then
        (((df.rows.map (updAt (colIdx (normCols df.cols) ("Paid Out")) cleanCell)).map
          (updAt (colIdx (normCols df.cols) ("Paid In")) cleanCell)).map
            (setAmtRow (normCols df.cols))).map
          (updAt (colIdx (setAmtCols (normCols df.cols)) ("Date")) dtCell)
        else ((df.rows.map (updAt (colIdx (normCols df.cols) ("Paid Out")) cleanCell)).map
          (updAt (colIdx (normCols df.cols) ("Paid In")) cleanCell)).map
            (setAmtRow (normCols df.cols))) =
        df.rows.map (cleanRowMap (normCols df.cols)) := by
      rw [hr2form]
      by_cases hd : (setAmtCols (normCols df.cols)).contains ("Date") = true
      · rw [if_pos hd, List.map_map]
        refine List.map_congr_left (fun r _ => ?_)
        simp only [Function.comp]
        unfold cleanRowMap dateStepRow
        rw [hccols, if_pos hd]
      · rw [if_neg hd]
        refine List.map_congr_left (fun r _ => ?_)
        unfold cleanRowMap dateStepRow
        rw [hccols, if_neg hd]
    unfold postSteps
    rw [hrowsform]
    have hD1 : (setAmtCols (normCols df.cols)).contains ("Description") = true :=
      contains_iff.mpr (mem_setAmtCols_of_mem hD)
    have hstr3 : ∀ r' ∈ (df.rows.map (cleanRowMap (normCols df.cols))).filter
        (fun r => r.any (fun v => !v.isNaB)),
        (cellAt r' (colIdx (setAmtCols (normCols df.cols)) ("Description"))).isStrB = true := by
      intro r' hr'
      obtain ⟨r0, hr0, hform⟩ := List.mem_map.mp (List.mem_of_mem_filter hr')
      have hlen := row_len_norm hrect hr0
      have hidx : colIdx (setAmtCols (normCols df.cols)) ("Description") =
          colIdx (normCols df.cols) ("Description") := by
        rw [← hccols]
        exact colIdx_cleanCols_of_mem hD
      rw [← hform, hidx,
        cleanRowMap_cell_other hD hlen (by decide) (by decide) (by decide) (by decide)]
      exact hstr r0 hr0 _ (cellAt_mem (by rw [hlen]; exact colIdx_lt_length hD))
    have hnguard : noiseStep (setAmtCols (normCols df.cols))
        ((df.rows.map (cleanRowMap (normCols df.cols))).filter
          (fun r => r.any (fun v => !v.isNaB))) =
        .ok (((df.rows.map (cleanRowMap (normCols df.cols))).filter
          (fun r => r.any (fun v => !v.isNaB))).filter
            (fun r => !noiseVal (cellAt r (colIdx (setAmtCols (normCols df.cols)) ("Description"))))) := by
      unfold noiseStep
      rw [if_pos hD1]
      rcases hx : (df.rows.map (cleanRowMap (normCols df.cols))).filter
          (fun r => r.any (fun v => !v.isNaB)) with _ | ⟨r', rs⟩
      · rw [hx]
        rfl
      · have hs := hstr3 r' (by rw [hx]; exact List.mem_cons_self _ _)
        rw [hx]
        simp only [List.all_cons, hs]
        rfl
    rw [hnguard]
    have hA : (setAmtCols (normCols df.cols)).contains ("Amount") = true :=
      contains_iff.mpr (mem_setAmtCols (normCols df.cols))
    rw [hA]
    rfl

/-- C5 witness: the amended theorem applied to the well-formed all-string
frame `c5wdf`, which carries all three required columns. -/
theorem c5_totality_with_columns_witness : isOkB (clean_dataframe c5wdf) = true :=
  c5_totality_with_columns c5wdf (by decide) (by decide) (by decide) (by decide) (by decide)

theorem stepLine_no_date (s : OState) (l : String) (h : matchDate l = none) :
    (stepLine s l).currentDate = s.currentDate ∧ (stepLine s l).data = s.data := by
  unfold stepLine
  rw [h]
  dsimp only
  constructor <;> (split <;> (try split) <;> (try split) <;> (try split) <;> rfl)

theorem stepLine_some_date (s : OState) (l : String) (d : String) (h : matchDate l = some d) :
    (stepLine s l).currentDate = some d ∧
    (stepLine s l).data = (match s.currentDate with
      | some cd => s.data ++ [flushTxn cd s]
      | none => s.data) := by
  unfold stepLine
  rw [h]
  exact ⟨rfl, rfl⟩

theorem runLines_currentDate (s : OState) (ls : List String) :
    (runLines s ls).currentDate = ls.foldl (fun acc l =>
      match matchDate l with | some m => some m | none => acc) s.currentDate := by
  induction ls generalizing s with
  | nil => rfl
  | cons l ls ih =>
    show (runLines (stepLine s l) ls).currentDate = _
    rw [ih]
    simp only [List.foldl_cons]
    congr 1
    rcases hm : matchDate l with _ | d
    · exact (stepLine_no_date s l hm).1
    · exact (stepLine_some_date s l d hm).1

theorem runLines_no_dates (s : OState) (ls : List String)
    (h : ∀ x ∈ ls, matchDate x = none) :
    (runLines s ls).currentDate = s.currentDate ∧ (runLines s ls).data = s.data := by
  induction ls generalizing s with
  | nil => exact ⟨rfl, rfl⟩
  | cons l ls ih =>
    have h1 := stepLine_no_date s l (h l (List.mem_cons_self _ _))
    have h2 := ih (stepLine s l) (fun x hx => h x (List.mem_cons_of_mem _ hx))
    exact ⟨h2.1.trans h1.1, h2.2.trans h1.2⟩

theorem runLines_append_single (s : OState) (ls : List String) (l : String) :
    runLines s (ls ++ [l]) = stepLine (runLines s ls) l := by
  unfold runLines
  rw [List.foldl_append]
  rfl

/-- C1: date stickiness.  A line with no date match emits no transaction and
leaves the loop's `current_date` at the most recently matched date of the
preceding lines; the transaction it extends, when flushed at the end of
the input, carries exactly that date. -/
theorem c1_date_stickiness (ls : List String) (l : String) (d : String)
    (hnd : matchDate l = none) (hld : lastMatchedDate ls = some d) :
    (runLines initO (ls ++ [l])).data = (runLines initO ls).data ∧
    (runLines initO (ls ++ [l])).currentDate = some d ∧
    (finalizeData (runLines initO (ls ++ [l]))).getLast?.map OTxn.date = some d := by
  have happ := runLines_append_single initO ls l
  have hstep := stepLine_no_date (runLines initO ls) l hnd
  have hcd : (runLines initO ls).currentDate = some d := by
    rw [runLines_currentDate]
    exact hld
  refine ⟨by rw [happ]; exact hstep.2, by rw [happ, hstep.1]; exact hcd, ?_⟩
  rw [happ]
  unfold finalizeData
  rw [hstep.1, hcd]
  rw [List.getLast?_concat]
  rfl

/-- C1 witness: after the dated line "15 Jun 25 Tesco Store", the date-less
line "Non-Sterling Fee" emits nothing, the sticky date stays
"15 Jun 25", and the flushed transaction carries it. -/
theorem c1_date_stickiness_witness :
    (runLines initO ([("15 Jun 25 Tesco Store")] ++ [("Non-Sterling Fee")])).data =
      (runLines initO [("15 Jun 25 Tesco Store")]).data ∧
    (runLines initO ([("15 Jun 25 Tesco Store")] ++ [("Non-Sterling Fee")])).currentDate =
      some ("15 Jun 25") ∧
    (finalizeData (runLines initO ([("15 Jun 25 Tesco Store")] ++
      [("Non-Sterling Fee")]))).getLast?.map OTxn.date = some ("15 Jun 25") :=
  c1_date_stickiness [("15 Jun 25 Tesco Store")] ("Non-Sterling Fee") ("15 Jun 25")
    (by decide) (by decide)

/-- C2: continuation merging.  A line with no date match and no amount matches
but nonempty text creates no transaction record: it only appends its text
(space-joined) to the in-progress description.  And if no date has been
matched at all, nothing is ever emitted: the final transaction list for a
run of date-less lines is empty — the text is discarded. -/
theorem c2_continuation_merging (s : OState) (ls : List String) (l : String)
    (hnd : matchDate l = none) (hna : (amtScan l).1 = []) (hne : l ≠ (""))
    (hall : ∀ x ∈ ls, matchDate x = none) :
    (stepLine s l).data = s.data ∧
    (stepLine s l).currentDesc =
      (if s.currentDesc = ("") then l else s.currentDesc ++ (" ") ++ l) ∧
    finalizeData (runLines initO (ls ++ [l])) = [] := by
  refine ⟨(stepLine_no_date s l hnd).2, ?_, ?_⟩
  · unfold stepLine
    rw [hnd]
    dsimp only
    rw [hna]
    simp only [List.map_nil, List.isEmpty_nil, if_true]
    rw [if_neg hne]
  · have hall' : ∀ x ∈ ls ++ [l], matchDate x = none := by
      intro x hx
      rcases List.mem_append.mp hx with h1 | h2
      · exact hall x h1
      · rw [List.mem_singleton.mp h2]
        exact hnd
    have hrun := runLines_no_dates initO (ls ++ [l]) hall'
    unfold finalizeData
    rw [hrun.1]
    exact hrun.2

/-- C2 witness: the theorem applied with an open transaction context and the
continuation line "Non-Sterling Transaction Fee": the data list is
untouched, the description is extended, and a run of date-less lines
finalizes to no transactions at all. -/
theorem c2_continuation_merging_witness :
    (stepLine ⟨some ("15 Jun 25"), ("Tesco Store"), none, none, none, []⟩
      ("Non-Sterling Transaction Fee")).data =
      (⟨some ("15 Jun 25"), ("Tesco Store"), none, none, none, []⟩ : OState).data ∧
    (stepLine ⟨some ("15 Jun 25"), ("Tesco Store"), none, none, none, []⟩
      ("Non-Sterling Transaction Fee")).currentDesc =
      (if (⟨some ("15 Jun 25"), ("Tesco Store"), none, none, none, []⟩ : OState).currentDesc = ("")
       then ("Non-Sterling Transaction Fee")
       else (⟨some ("15 Jun 25"), ("Tesco Store"), none, none, none, []⟩ : OState).currentDesc ++
         (" ") ++ ("Non-Sterling Transaction Fee")) ∧
    finalizeData (runLines initO ([("Hello world")] ++ [("Non-Sterling Transaction Fee")])) = [] :=
  c2_continuation_merging ⟨some ("15 Jun 25"), ("Tesco Store"), none, none, none, []⟩
    [("Hello world")] ("Non-Sterling Transaction Fee") (by decide) (by decide) (by decide)
    (by decide)

theorem insCol_perm (c : TCell) (l : List TCell) : (insCol c l).Perm (c :: l) := by
  induction l with
  | nil => exact List.Perm.refl _
  | cons d ds ih =>
    unfold insCol
    split
    · exact (List.Perm.cons d ih).trans (List.Perm.swap c d ds)
    · exact List.Perm.refl _

theorem sortCol_perm (l : List TCell) : (sortCol l).Perm l := by
  induction l with
  | nil => exact List.Perm.refl _
  | cons c cs ih =>
    unfold sortCol
    exact (insCol_perm c (sortCol cs)).trans (List.Perm.cons c ih)

theorem insCol_pairwise {c : TCell} {l : List TCell}
    (h : List.Pairwise (fun x y : TCell => x.col ≤ y.col) l) :
    List.Pairwise (fun x y : TCell => x.col ≤ y.col) (insCol c l) := by
  induction l with
  | nil => exact List.pairwise_singleton _ _
  | cons d ds ih =>
    obtain ⟨hd, hds⟩ := List.pairwise_cons.mp h
    unfold insCol
    split
    · rename_i hdc
      refine List.pairwise_cons.mpr ⟨?_, ih hds⟩
      intro y hy
      rcases List.mem_cons.mp ((insCol_perm c ds).mem_iff.mp hy) with h1 | h2
      · exact h1 ▸ hdc
      · exact hd y h2
    · rename_i hdc
      have hcd : c.col ≤ d.col := Nat.le_of_lt (Nat.lt_of_not_le hdc)
      refine List.pairwise_cons.mpr ⟨?_, h⟩
      intro y hy
      rcases List.mem_cons.mp hy with h1 | h2
      · exact h1 ▸ hcd
      · exact Nat.le_trans hcd (hd y h2)

theorem sortCol_pairwise (l : List TCell) :
    List.Pairwise (fun x y : TCell => x.col ≤ y.col) (sortCol l) := by
  induction l with
  | nil => exact List.Pairwise.nil
  | cons c cs ih =>
    unfold sortCol
    exact insCol_pairwise ih

theorem mkPandasDF_ok {headers : List String} {dataRows : List (List String)} {g : DFrame}
    (h : mkPandasDF headers dataRows = .ok g) :
    g.cols = headers ∧ g.rows.length = dataRows.length := by
  unfold mkPandasDF at h
  split at h
  · rename_i hemp
    injection h with h'
    rw [← h']
    exact ⟨rfl, by simp [List.isEmpty_iff.mp hemp]⟩
  · split at h
    · injection h with h'
      rw [← h']
      exact ⟨rfl, by simp⟩
    · cases h

theorem foldl_join (ws : List String) (hne : ws ≠ []) :
    ∀ init : String, ws.foldl (fun acc w => acc ++ w ++ (" ")) init = init ++ joinSp ws ++ (" ") := by
  induction ws with
  | nil => exact absurd rfl hne
  | cons w t ih =>
    intro init
    cases t with
    | nil => rfl
    | cons w2 t2 =>
      show (w2 :: t2).foldl (fun acc w => acc ++ w ++ (" ")) (init ++ w ++ (" ")) = _
      rw [ih (by simp) (init ++ w ++ (" "))]
      show _ = init ++ (w ++ (" ") ++ joinSp (w2 :: t2)) ++ (" ")
      rw [String.append_assoc init, String.append_assoc init]

theorem joinSp_chars (ws : List String) (hne : ws ≠ []) (hw : ∀ w ∈ ws, wsFreeWord w = true) :
    (joinSp ws).toList ≠ [] ∧
    (∀ c, (joinSp ws).toList.head? = some c → isWS c = false) ∧
    (∀ c, (joinSp ws).toList.getLast? = some c → isWS c = false) := by
  induction ws with
  | nil => exact absurd rfl hne
  | cons w t ih =>
    have hwf := hw w (List.mem_cons_self _ _)
    obtain ⟨hwne, hwall⟩ := Bool.and_eq_true_iff.mp hwf
    have hwne' : w.toList ≠ [] := by
      intro h0
      rw [h0] at hwne
      cases hwne
    cases t with
    | nil =>
      refine ⟨hwne', ?_, ?_⟩
      · intro c hc
        have hc2 : w.toList.head? = some c := hc
        have hcmem : c ∈ w.toList := by
          rcases hx : w.toList with _ | ⟨a, as⟩
          · rw [hx] at hc2
            cases hc2
          · rw [hx] at hc2
            injection hc2 with hc'
            rw [← hc']
            exact List.mem_cons_self _ _
        have := List.all_eq_true.mp hwall c hcmem
        simpa using this
      · intro c hc
        have := List.all_eq_true.mp hwall c (List.mem_of_getLast?_eq_some hc)
        simpa using this
    | cons w2 t2 =>
      have iht := ih (by simp) (fun x hx => hw x (List.mem_cons_of_mem _ hx))
      have hform : (joinSp (w :: w2 :: t2)).toList =
          w.toList ++ [' '] ++ (joinSp (w2 :: t2)).toList := by
        show (w ++ (" ") ++ joinSp (w2 :: t2)).data = _
        rw [String.data_append, String.data_append]
        rfl
      refine ⟨?_, ?_, ?_⟩
      · rw [hform]
        simp [hwne']
      · intro c hc
        rw [hform] at hc
        rw [List.append_assoc, List.head?_append] at hc
        rcases hx : w.toList.head? with _ | a
        · rcases hy : w.toList with _ | ⟨a, as⟩
          · exact absurd hy hwne'
          · rw [hy] at hx; cases hx
        · rw [hx] at hc
          injection hc with hc'
          have := List.all_eq_true.mp hwall a (by
            rcases hy : w.toList with _ | ⟨a2, as⟩
            · exact absurd hy hwne'
            · rw [hy] at hx
              injection hx with hx'
              rw [hx']
              exact List.mem_cons_self _ _)
          rw [← hc']
          simpa using this
      · intro c hc
        rw [hform, List.getLast?_append] at hc
        rcases hx : (joinSp (w2 :: t2)).toList.getLast? with _ | a
        · rcases hy : (joinSp (w2 :: t2)).toList with _ | ⟨a2, as⟩
          · exact absurd hy iht.1
          · rw [hy] at hx
            simp at hx
        · rw [hx] at hc
          injection hc with hc'
          rw [← hc']
          exact iht.2.2 a hx

theorem stripChars_space {l : List Char} (hne : l ≠ [])
    (hhead : ∀ c, l.head? = some c → isWS c = false)
    (hlast : ∀ c, l.getLast? = some c → isWS c = false) :
    stripChars (l ++ [' ']) = l := by
  unfold stripChars
  have h1 : List.dropWhile isWS (l ++ [' ']) = l ++ [' '] := by
    cases l with
    | nil => exact absurd rfl hne
    | cons c cs =>
      rw [List.cons_append, List.dropWhile_cons_of_neg (by simp [hhead c rfl])]
  rw [h1, List.reverse_append]
  simp only [List.reverse_cons, List.reverse_nil, List.nil_append, List.singleton_append]
  rw [List.dropWhile_cons_of_pos (by rfl)]
  have h2 : List.dropWhile isWS l.reverse = l.reverse := by
    cases hrev : l.reverse with
    | nil => rfl
    | cons c' cs' =>
      have hl2 : l.getLast? = some c' := by
        rw [← List.head?_reverse, hrev]
        rfl
      rw [List.dropWhile_cons_of_neg (by simp [hlast c' hl2])]
  rw [h2, List.reverse_reverse]

theorem textOf_join (ws : List String) (hne : ws ≠ []) (hw : ∀ w ∈ ws, wsFreeWord w = true) :
    textOf ws = joinSp ws := by
  unfold textOf
  rw [foldl_join ws hne ("")]
  obtain ⟨hjne, hhead, hlast⟩ := joinSp_chars ws hne hw
  have h0 : ("" : String) ++ joinSp ws ++ (" ") = joinSp ws ++ (" ") := by
    apply String.ext
    simp
  rw [h0]
  unfold pyStrip
  have h1 : (joinSp ws ++ (" ")).toList = (joinSp ws).toList ++ [' '] := by
    show (joinSp ws ++ (" ")).data = _
    rw [String.data_append]
    rfl
  rw [h1, stripChars_space hjne hhead hlast]
  rfl

/-- C8 counterexample: the claim says the builder produces a dense grid over
column range `1..max_observed` with missing positions filled by the empty
string; but for the sparse table `t8cells` (cells only in columns 1 and
3), the code's grid has two-entry rows with no empty-string padding at
column 2, unlike the dense grid stated by the spec. -/
theorem c8_dense_fill_counterexample :
    tableGrid [] t8cells = some (.ok ⟨[("Date"), ("Balance")],
      [[Val.s ("15 Jun 25"), Val.s ("487.50")]]⟩) ∧
    specDenseGrid t8cells =
      [[("Date"), (""), ("Balance")], [("15 Jun 25"), (""), ("487.50")]] ∧
    ([("Date"), ("Balance")] : List String) ≠ [("Date"), (""), ("Balance")] := by
  refine ⟨by decide, by decide, by decide⟩

/-- C8 (amended): the builder does not densify.  Each cell's text is the
space-join of its sub-fragments (for whitespace-free nonempty fragments);
a first table with no cells contributes no grid at all; and each produced
row consists of exactly the observed cells in column-sorted order —
missing positions are omitted, never filled with empty strings. -/
theorem c8_no_dense_fill :
    (∀ ws : List String, ws ≠ [] → (∀ w ∈ ws, wsFreeWord w = true) →
      textOf ws = joinSp ws) ∧
    extract_tables_from_textract [[]] = .ok [] ∧
    (∀ cells : List TCell, ∀ b ∈ (bucketTable [] cells).1,
      rowTexts b = (sortCol b).map (fun c => textOf c.words) ∧
      (rowTexts b).length = b.length ∧
      List.Pairwise (fun x y : TCell => x.col ≤ y.col) (sortCol b) ∧
      (sortCol b).Perm b) := by
  refine ⟨fun ws hne hw => textOf_join ws hne hw, by decide, ?_⟩
  intro cells b _
  refine ⟨rfl, ?_, sortCol_pairwise b, sortCol_perm b⟩
  show ((sortCol b).map (fun c => textOf c.words)).length = b.length
  rw [List.length_map]
  exact (sortCol_perm b).length_eq

/-- C8 witness: the amended theorem at concrete inputs — the three fragments
of the date cell join to "15 Jun 25", the no-cell table yields no grid,
and an out-of-order sparse row is produced column-sorted without fill. -/
theorem c8_no_dense_fill_witness :
    textOf [("15"), ("Jun"), ("25")] = joinSp [("15"), ("Jun"), ("25")] ∧
    extract_tables_from_textract [[]] = .ok [] ∧
    (rowTexts [⟨1, 3, [("Balance")]⟩, ⟨1, 1, [("Date")]⟩] =
      (sortCol [⟨1, 3, [("Balance")]⟩, ⟨1, 1, [("Date")]⟩]).map (fun c => textOf c.words) ∧
     (rowTexts [⟨1, 3, [("Balance")]⟩, ⟨1, 1, [("Date")]⟩]).length =
       ([⟨1, 3, [("Balance")]⟩, ⟨1, 1, [("Date")]⟩] : List TCell).length ∧
     List.Pairwise (fun x y : TCell => x.col ≤ y.col)
       (sortCol [⟨1, 3, [("Balance")]⟩, ⟨1, 1, [("Date")]⟩]) ∧
     (sortCol [⟨1, 3, [("Balance")]⟩, ⟨1, 1, [("Date")]⟩]).Perm
       [⟨1, 3, [("Balance")]⟩, ⟨1, 1, [("Date")]⟩]) :=
  ⟨c8_no_dense_fill.1 [("15"), ("Jun"), ("25")] (by decide) (by decide),
   c8_no_dense_fill.2.1,
   c8_no_dense_fill.2.2 [⟨1, 3, [("Balance")]⟩, ⟨1, 1, [("Date")]⟩]
     [⟨1, 3, [("Balance")]⟩, ⟨1, 1, [("Date")]⟩] (by decide)⟩

/-- C10: implicit header consumption.  For every table whose bucketed rows are
nonempty, the produced grid takes the first bucketed row's cell texts as
the column headers and only the remaining rows as data rows; a table with
exactly one row therefore contributes zero data rows. -/
theorem c10_header_consumption (cur0 cells : List TCell) (b : List TCell)
    (bs : List (List TCell)) (g : DFrame)
    (hb : (bucketTable cur0 cells).1 = b :: bs)
    (hg : tableGrid cur0 cells = some (.ok g)) :
    g.cols = rowTexts b ∧ g.rows.length = bs.length ∧ (bs = [] → g.rows = []) := by
  unfold tableGrid at hg
  rw [hb] at hg
  injection hg with hg'
  obtain ⟨h1, h2⟩ := mkPandasDF_ok hg'
  refine ⟨h1, by rw [h2, List.length_map], ?_⟩
  intro hbs
  subst hbs
  have h3 : g.rows.length = 0 := by simpa using h2
  exact List.length_eq_zero.mp h3

/-- C10 witness: the one-row table `c10cells` yields a grid whose headers are
the row's texts and whose data-row list is empty. -/
theorem c10_header_consumption_witness :
    (⟨[("Date"), ("Balance")], []⟩ : DFrame).cols = rowTexts c10cells ∧
    (⟨[("Date"), ("Balance")], []⟩ : DFrame).rows.length =
      ([] : List (List TCell)).length ∧
    (([] : List (List TCell)) = [] → (⟨[("Date"), ("Balance")], []⟩ : DFrame).rows = []) :=
  c10_header_consumption [] c10cells c10cells [] ⟨[("Date"), ("Balance")], []⟩
    (by decide) (by decide)
